import Mathlib

/-!
Verification development for the MoltiesPoker backend (Texas Hold'em engine).

The definitions below are a shallow embedding of the JavaScript source:
`poker.js` (cards, deck, hand evaluation, winner determination) and
`server.js` (table state, blinds, the action endpoint, phase advancement,
showdown resolution, leaving a table).  JavaScript objects become
structures, identity-keyed objects become association lists in insertion
order, MongoDB writes become pure state updates threaded in program order,
and early `return res.status(400)...` rejections become an error result
produced before any state update.  `Math.random`-driven shuffling is
externalized: `startNewHand` takes the already shuffled deck as an
argument.  All chip amounts are `Int`, mirroring JavaScript numbers on the
integer ranges the program uses.
-/

namespace MoltiesPoker

/-! ## Cards and deck (`poker.js`) -/

inductive Suit where
  | hearts | diamonds | clubs | spades
deriving DecidableEq, Fintype

inductive Rank where
  | r2 | r3 | r4 | r5 | r6 | r7 | r8 | r9 | r10 | rJ | rQ | rK | rA
deriving DecidableEq, Fintype

/-- `RANK_VALUES` from `poker.js`. -/
def rankValue : Rank → Nat
  | .r2 => 2 | .r3 => 3 | .r4 => 4 | .r5 => 5 | .r6 => 6 | .r7 => 7
  | .r8 => 8 | .r9 => 9 | .r10 => 10 | .rJ => 11 | .rQ => 12 | .rK => 13
  | .rA => 14

/-- A card object `{suit, rank, value}`; `createDeck` always sets
`value = RANK_VALUES[rank]`, but `value` is a stored field as in the JS. -/
structure Card where
  suit : Suit
  rank : Rank
  value : Nat
deriving DecidableEq

instance : Inhabited Card := ⟨⟨.hearts, .r2, 2⟩⟩

def SUITS : List Suit := [.hearts, .diamonds, .clubs, .spades]

def RANKS : List Rank :=
  [.r2, .r3, .r4, .r5, .r6, .r7, .r8, .r9, .r10, .rJ, .rQ, .rK, .rA]

/-- `createDeck()`: suits outer loop, ranks inner loop. -/
def createDeck : List Card :=
  SUITS.flatMap (fun s => RANKS.map (fun r => ⟨s, r, rankValue r⟩))

/-- `dealCards(deck, count)`: `deck.splice(0, count)` removes and returns
the first `count` cards (all of them if fewer remain); the first component
is the dealt hand, the second the mutated remaining deck. -/
def dealCards (deck : List Card) (count : Nat) : List Card × List Card :=
  (deck.take count, deck.drop count)

/-! ## Hand evaluation (`poker.js`) -/

/-- Order used by `.sort((a, b) => b.value - a.value)`: descending value. -/
def cardDescR : Card → Card → Prop := fun a b => b.value ≤ a.value

instance : DecidableRel cardDescR :=
  fun a b => inferInstanceAs (Decidable (b.value ≤ a.value))

instance : IsTotal Card cardDescR := ⟨fun a b => (Nat.le_total b.value a.value)⟩

instance : IsTrans Card cardDescR :=
  ⟨fun _ _ _ hab hbc => Nat.le_trans hbc hab⟩

def sortCardsDesc (cs : List Card) : List Card := List.insertionSort cardDescR cs

def natDescR : Nat → Nat → Prop := fun a b => b ≤ a

instance : DecidableRel natDescR := fun a b => inferInstanceAs (Decidable (b ≤ a))

instance : IsTotal Nat natDescR := ⟨fun a b => Nat.le_total b a⟩

instance : IsTrans Nat natDescR := ⟨fun _ _ _ hab hbc => Nat.le_trans hbc hab⟩

/-- First-occurrence deduplication, as a JS `Set` / object-key insertion
order produces.  (The orders fed into the sorts below have injective sort
keys, so the pre-sort order never affects a sorted result.) -/
def dedupFirstAux [DecidableEq α] : List α → List α → List α
  | _, [] => []
  | seen, a :: l =>
    if a ∈ seen then dedupFirstAux seen l else a :: dedupFirstAux (a :: seen) l

def dedupFirst [DecidableEq α] (l : List α) : List α := dedupFirstAux [] l

/-- `getCounts(cards)[r]`: how many cards of rank `r`. -/
def countRank (cs : List Card) (r : Rank) : Nat :=
  (cs.filter (fun c => decide (c.rank = r))).length

def rankList (cs : List Card) : List Rank := dedupFirst (cs.map (·.rank))

/-- Comparator of `countValues.sort`: count descending, then rank value
descending.  Distinct ranks have distinct values, so the key is injective. -/
def cvRel : (Rank × Nat) → (Rank × Nat) → Prop := fun a b =>
  if a.2 = b.2 then rankValue b.1 ≤ rankValue a.1 else b.2 ≤ a.2

instance : DecidableRel cvRel := fun a b => by
  unfold cvRel; infer_instance

/-- `countValues` in `evaluateHand`: the rank/count entries sorted. -/
def countValues (cs : List Card) : List (Rank × Nat) :=
  List.insertionSort cvRel ((rankList cs).map (fun r => (r, countRank cs r)))

/-- `countValues[i][1]`, with 0 when the index is out of range (a JS read
of an absent entry only feeds `>=`/`===` guards that then fail). -/
def cvCount (counts : List (Rank × Nat)) (i : Nat) : Nat :=
  ((counts.get? i).map Prod.snd).getD 0

/-- `countValues[i][0]`; the junk default is only reachable when the
corresponding `cvCount` guard already failed. -/
def rankAt (counts : List (Rank × Nat)) (i : Nat) : Rank :=
  ((counts.get? i).map Prod.fst).getD Rank.r2

def suitList (cs : List Card) : List Suit := dedupFirst (cs.map (·.suit))

def suitCount (cs : List Card) (s : Suit) : Nat :=
  (cs.filter (fun c => decide (c.suit = s))).length

/-- `getFlush`: first suit with at least five cards, highest five of it. -/
def getFlush (cs : List Card) : Option (List Card) :=
  (suitList cs).findSome? (fun s =>
    if 5 ≤ suitCount cs s then
      some ((sortCardsDesc (cs.filter (fun c => decide (c.suit = s)))).take 5)
    else none)

/-- The deduplicated values sorted descending, with 1 appended when an ace
(value 14) is present, exactly as `getStraight` builds `uniqueValues`. -/
def uniqueValuesDesc (cs : List Card) : List Nat :=
  let u := List.insertionSort natDescR (dedupFirst (cs.map (·.value)))
  if 14 ∈ u then u ++ [1] else u

/-- The window scan of `getStraight`: the first index `i` (scanning left to
right) whose five entries descend by exactly one; returns the high value. -/
def consecutive5 : List Nat → Option Nat
  | a :: b :: c :: d :: e :: rest =>
    if a = b + 1 ∧ b = c + 1 ∧ c = d + 1 ∧ d = e + 1 then some a
    else consecutive5 (b :: c :: d :: e :: rest)
  | _ => none

/-- The five loop values `v = high, high-1, ..., high-4` of `getStraight`'s
collection loop, as integers (the JS loop variable may in principle pass
through any integer). -/
def straightTargets (high : Nat) : List Int :=
  (List.range 5).map (fun j => (high : Int) - j)

/-- `const actualValue = v === 1 ? 14 : v`. -/
def actualValue (v : Int) : Int := if v = 1 then 14 else v

/-- The collection loop of `getStraight`: for each target value pick a card
of that value not already collected, in order.  (`includes` compares JS
object references; the collected values are pairwise distinct, so
structural inequality coincides with it on every reachable input.) -/
def collectStraight (cs : List Card) (high : Nat) : List Card :=
  (straightTargets high).foldl (fun acc v =>
    match cs.find? (fun c =>
        decide ((c.value : Int) = actualValue v) && decide (c ∉ acc)) with
    | some c => acc ++ [c]
    | none => acc) []

def getStraight (cs : List Card) : Option (List Card) :=
  match consecutive5 (uniqueValuesDesc cs) with
  | some high => some (collectStraight cs high)
  | none => none

/-- `getStraightFlush`: for each suit with five or more cards, look for a
straight among that suit's cards, returning the first hit. -/
def getStraightFlush (cs : List Card) : Option (List Card) :=
  (suitList cs).findSome? (fun s =>
    if 5 ≤ suitCount cs s then
      getStraight (cs.filter (fun c => decide (c.suit = s)))
    else none)

/-- The result object of `evaluateHand`. -/
structure HandResult where
  ranking : Nat
  name : String
  cards : List Card
  kickers : List Card
deriving DecidableEq

/-- `evaluateHand(holeCards, communityCards)`, branch for branch in source
order.  Where the JS indexes `[0]` into a list that is provably nonempty
on every reachable input (`straightFlush[0]`, `highCards[0]`, a kicker
after removing at most four cards from at least five), the embedding uses
`head?`/`take`, which agree with the JS whenever the list is nonempty. -/
def evaluateHand (holeCards communityCards : List Card) : HandResult :=
  let allCards := holeCards ++ communityCards
  if allCards.length < 5 then ⟨0, "Incomplete", [], []⟩ else
  let counts := countValues allCards
  match getStraightFlush allCards with
  | some straightFlush =>
    if straightFlush.head?.map (·.value) = some 14 then
      ⟨10, "Royal Flush", straightFlush, []⟩
    else
      ⟨9, "Straight Flush", straightFlush, []⟩
  | none =>
    if cvCount counts 0 = 4 then
      let quadRank := rankAt counts 0
      let quads := allCards.filter (fun c => decide (c.rank = quadRank))
      let rest := sortCardsDesc (allCards.filter (fun c => decide (¬ c.rank = quadRank)))
      ⟨8, "Four of a Kind", quads, rest.take 1⟩
    else if cvCount counts 0 = 3 ∧ 2 ≤ cvCount counts 1 then
      let tripRank := rankAt counts 0
      let pairRank := rankAt counts 1
      let trips := (allCards.filter (fun c => decide (c.rank = tripRank))).take 3
      let pair := (allCards.filter (fun c => decide (c.rank = pairRank))).take 2
      ⟨7, "Full House", trips ++ pair, []⟩
    else
      match getFlush allCards with
      | some flush => ⟨6, "Flush", flush, []⟩
      | none =>
        match getStraight allCards with
        | some straight => ⟨5, "Straight", straight, []⟩
        | none =>
          if cvCount counts 0 = 3 then
            let tripRank := rankAt counts 0
            let trips := allCards.filter (fun c => decide (c.rank = tripRank))
            let kickers := (sortCardsDesc (allCards.filter (fun c => decide (¬ c.rank = tripRank)))).take 2
            ⟨4, "Three of a Kind", trips, kickers⟩
          else if cvCount counts 0 = 2 ∧ cvCount counts 1 = 2 then
            let highPairRank := rankAt counts 0
            let lowPairRank := rankAt counts 1
            let highPair := (allCards.filter (fun c => decide (c.rank = highPairRank))).take 2
            let lowPair := (allCards.filter (fun c => decide (c.rank = lowPairRank))).take 2
            let others := sortCardsDesc (allCards.filter (fun c =>
              decide (¬ c.rank = highPairRank ∧ ¬ c.rank = lowPairRank)))
            ⟨3, "Two Pair", highPair ++ lowPair, others.take 1⟩
          else if cvCount counts 0 = 2 then
            let pairRank := rankAt counts 0
            let pair := allCards.filter (fun c => decide (c.rank = pairRank))
            let kickers := (sortCardsDesc (allCards.filter (fun c => decide (¬ c.rank = pairRank)))).take 3
            ⟨2, "One Pair", pair, kickers⟩
          else
            match (sortCardsDesc allCards).take 5 with
            | c :: ks => ⟨1, "High Card", [c], ks⟩
            | [] => ⟨1, "High Card", [], []⟩

/-- The per-position comparison loops of `compareHands`: first differing
value decides; loops stop at the shorter list. -/
def compareCardLists : List Card → List Card → Int
  | a :: as', b :: bs' =>
    if a.value ≠ b.value then (b.value : Int) - (a.value : Int)
    else compareCardLists as' bs'
  | _, _ => 0

/-- `compareHands(hand1, hand2)`: negative when `hand1` is better. -/
def compareHands (h1 h2 : HandResult) : Int :=
  if h1.ranking ≠ h2.ranking then (h2.ranking : Int) - (h1.ranking : Int)
  else
    let c := compareCardLists h1.cards h2.cards
    if c ≠ 0 then c else compareCardLists h1.kickers h2.kickers

/-! ## Showdown evaluation (`determineWinners` in `poker.js`) -/

structure ShowdownPlayer where
  moltbook_id : Nat
  hole_cards : List Card
  total_bet : Int
deriving DecidableEq

instance : Inhabited ShowdownPlayer := ⟨⟨0, [], 0⟩⟩

structure EvalEntry where
  player : ShowdownPlayer
  hand : HandResult
deriving DecidableEq

/-- Order of `evaluations.sort((a, b) => compareHands(a.hand, b.hand))`:
best hands first (JS `Array.prototype.sort` is stable, as is
`insertionSort`). -/
def evalRel : EvalEntry → EvalEntry → Prop := fun a b =>
  compareHands a.hand b.hand ≤ 0

instance : DecidableRel evalRel :=
  fun a b => inferInstanceAs (Decidable (compareHands a.hand b.hand ≤ 0))

/-- `determineWinners(players, communityCards)`: the best entry plus every
following entry tied with it (the JS loop breaks at the first non-tie). -/
def determineWinners (players : List ShowdownPlayer) (communityCards : List Card) :
    List EvalEntry :=
  let evaluations := players.map (fun p => ⟨p, evaluateHand p.hole_cards communityCards⟩)
  match List.insertionSort evalRel evaluations with
  | [] => []
  | e0 :: rest => e0 :: rest.takeWhile (fun e => decide (compareHands e0.hand e.hand = 0))

/-! ## Table and game state (`server.js`) -/

def BLINDS_SMALL : Int := 1

def BLINDS_BIG : Int := 2

def MIN_PLAYERS_TO_START : Nat := 2

structure Seat where
  moltbook_id : Nat
  balance : Int
deriving DecidableEq

/-- A `game.player_hands[moltbook_id]` record. -/
structure PlayerHand where
  hole_cards : List Card
  folded : Bool
  current_bet : Int
  total_bet : Int
deriving DecidableEq

inductive Phase where
  | waiting | pre_flop | flop | turn | river | showdown
deriving DecidableEq

structure WinnerEntry where
  moltbook_id : Nat
  hand_name : String
  pot_share : Int
deriving DecidableEq

/-- `table.game`.  `player_hands` is an identity-keyed object, embedded as
an association list in key insertion order; `turn_started_at` is dropped
(a timestamp the engine only ever stores for an external timer). -/
structure Game where
  phase : Phase
  deck : List Card
  community_cards : List Card
  pot : Int
  current_bet : Int
  player_hands : List (Nat × PlayerHand)
  active_players : List Nat
  dealer_index : Nat
  current_turn_index : Nat
  current_turn_player : Nat
  last_raiser : Option Nat
  hand_number : Nat
  winners : Option (List WinnerEntry)
deriving DecidableEq

structure Table where
  seats : List (Option Seat)
  seats_count : Int
  status : String
  game : Option Game
deriving DecidableEq

/-- The persisted state an action can read and write: the table record and
the account balances (keyed by `moltbook_id`). -/
structure Db where
  table : Table
  accounts : List (Nat × Int)
deriving DecidableEq

def lookup {α : Type} (m : List (Nat × α)) (k : Nat) : Option α :=
  (m.find? (fun e => decide (e.1 = k))).map Prod.snd

/-- Assignment `m[k] = v` on an identity-keyed object. -/
def setKey {α : Type} (m : List (Nat × α)) (k : Nat) (v : α) : List (Nat × α) :=
  m.map (fun e => if e.1 = k then (k, v) else e)

/-- Field mutation `m[k].f = ...` on an identity-keyed object. -/
def modifyKey {α : Type} (m : List (Nat × α)) (k : Nat) (f : α → α) :
    List (Nat × α) :=
  m.map (fun e => if e.1 = k then (e.1, f e.2) else e)

/-- `db.collection('accounts').updateOne({moltbook_id: k}, {$inc: {balance: d}})`. -/
def incBal (accounts : List (Nat × Int)) (k : Nat) (d : Int) : List (Nat × Int) :=
  accounts.map (fun e => if e.1 = k then (e.1, e.2 + d) else e)

/-- The seat-balance loops of `server.js`: scan `table.seats`, adjust the
first seat of the player, `break`. -/
def updateSeatBalance : List (Option Seat) → Nat → Int → List (Option Seat)
  | [], _, _ => []
  | none :: rest, pid, d => none :: updateSeatBalance rest pid d
  | some s :: rest, pid, d =>
    if s.moltbook_id = pid then some { s with balance := s.balance + d } :: rest
    else some s :: updateSeatBalance rest pid d

/-- A seat together with its index, as built by the
`table.seats.map((seat, index) => ...).filter(...)` patterns. -/
structure SeatRef where
  moltbook_id : Nat
  balance : Int
  seatIndex : Nat
deriving DecidableEq

instance : Inhabited SeatRef := ⟨⟨0, 0, 0⟩⟩

def seatRefs (seats : List (Option Seat)) : List SeatRef :=
  seats.enum.filterMap (fun p => p.2.map (fun s => ⟨s.moltbook_id, s.balance, p.1⟩))

def refAt (l : List SeatRef) (i : Nat) : SeatRef := (l.get? i).getD default

/-- `game.player_hands[pid]?.folded` (an absent hand reads as not folded). -/
def hasFolded (hands : List (Nat × PlayerHand)) (pid : Nat) : Bool :=
  match lookup hands pid with
  | some h => h.folded
  | none => false

/-- The non-folded player ids, in `player_hands` key order: the
`activePlayers` recomputed after every action. -/
def nonFoldedIds (hands : List (Nat × PlayerHand)) : List Nat :=
  hands.filterMap (fun e => if e.2.folded then none else some e.1)

/-! ## `startNewHand` (`server.js`) -/

/-- `startNewHand(db, tableId)`, with the shuffled deck supplied as an
argument in place of `shuffleDeck(createDeck())`.  Returns `none` when
fewer than two seated players have a positive balance (the JS returns
`null`), otherwise the state after the hand is dealt, blinds are posted,
and both table writes and both account `$inc`s are applied. -/
def startNewHand (db : Db) (shuffledDeck : List Card) : Option Db :=
  let table := db.table
  let activePlayers := (seatRefs table.seats).filter (fun s => decide (0 < s.balance))
  if activePlayers.length < MIN_PLAYERS_TO_START then none else
  let n := activePlayers.length
  let dealerIndex := match table.game with
    | some g => (g.dealer_index + 1) % n
    | none => 0
  let smallBlindIndex := (dealerIndex + 1) % n
  let bigBlindIndex := (dealerIndex + 2) % n
  let dealt := activePlayers.foldl
    (fun (acc : List (Nat × PlayerHand) × List Card) p =>
      let d := dealCards acc.2 2
      (acc.1 ++ [(p.moltbook_id, ⟨d.1, false, 0, 0⟩)], d.2))
    ([], shuffledDeck)
  let sbId := (refAt activePlayers smallBlindIndex).moltbook_id
  let bbId := (refAt activePlayers bigBlindIndex).moltbook_id
  let hands1 := modifyKey dealt.1 sbId
    (fun h => { h with current_bet := BLINDS_SMALL, total_bet := BLINDS_SMALL })
  let hands2 := modifyKey hands1 bbId
    (fun h => { h with current_bet := BLINDS_BIG, total_bet := BLINDS_BIG })
  let firstToActIndex := (bigBlindIndex + 1) % n
  let game : Game := {
    phase := .pre_flop
    deck := dealt.2
    community_cards := []
    pot := BLINDS_SMALL + BLINDS_BIG
    current_bet := BLINDS_BIG
    player_hands := hands2
    active_players := activePlayers.map (·.moltbook_id)
    dealer_index := dealerIndex
    current_turn_index := firstToActIndex
    current_turn_player := (refAt activePlayers firstToActIndex).moltbook_id
    last_raiser := some bbId
    hand_number := (match table.game with | some g => g.hand_number | none => 0) + 1
    winners := none }
  let accounts1 := incBal (incBal db.accounts sbId (-BLINDS_SMALL)) bbId (-BLINDS_BIG)
  let seats1 := table.seats.map (fun s? => s?.map (fun s =>
    if s.moltbook_id = sbId then { s with balance := s.balance - BLINDS_SMALL }
    else if s.moltbook_id = bbId then { s with balance := s.balance - BLINDS_BIG }
    else s))
  some ⟨{ table with status := "playing", game := some game, seats := seats1 }, accounts1⟩

/-! ## `resolveShowdown` and `advancePhase` (`server.js`) -/

/-- `resolveShowdown(db, tableId)` up to the final table write (the
delayed `setTimeout` restart belongs to the external scheduler).  With one
non-folded player the pot goes to them with no evaluation; otherwise
`determineWinners` runs and each winner gets `Math.floor(pot / winners)`. -/
def resolveShowdown (db : Db) : Db :=
  let table := db.table
  match table.game with
  | none => db
  | some game =>
    let remainingPlayers : List ShowdownPlayer :=
      game.player_hands.filterMap (fun e =>
        if e.2.folded then none else some ⟨e.1, e.2.hole_cards, e.2.total_bet⟩)
    let step : List (Nat × Int) × List (Option Seat) × Game :=
      if remainingPlayers.length = 1 then
        let winner := remainingPlayers.head?.getD default
        (incBal db.accounts winner.moltbook_id game.pot,
         updateSeatBalance table.seats winner.moltbook_id game.pot,
         game)
      else
        let winners := determineWinners remainingPlayers game.community_cards
        let potShare := Int.fdiv game.pot (winners.length : Int)
        (winners.foldl (fun a w => incBal a w.player.moltbook_id potShare) db.accounts,
         winners.foldl (fun s w => updateSeatBalance s w.player.moltbook_id potShare) table.seats,
         { game with winners := some (winners.map (fun w =>
             ⟨w.player.moltbook_id, w.hand.name, potShare⟩)) })
    let game2 := { step.2.2 with phase := .waiting }
    ⟨{ table with seats := step.2.1, status := "hand_complete", game := some game2 },
     step.1⟩

/-- `advancePhase(db, tableId)`: deal the next street, zero the current
bets, move the turn to the first non-folded active seat after the dealer,
clear the last raiser, and resolve the showdown after the river.  (The JS
`RIVER` case deals no cards; dealing zero cards is the identity.) -/
def advancePhase (db : Db) : Db :=
  let table := db.table
  match table.game with
  | none => db
  | some game =>
    let step : Option (Phase × Nat) :=
      match game.phase with
      | .pre_flop => some (.flop, 3)
      | .flop => some (.turn, 1)
      | .turn => some (.river, 1)
      | .river => some (.showdown, 0)
      | _ => none
    match step with
    | none => db
    | some (newPhase, dealCount) =>
      let d := dealCards game.deck dealCount
      let game1 := { game with
        community_cards := game.community_cards ++ d.1
        deck := d.2
        phase := newPhase
        current_bet := 0
        player_hands := game.player_hands.map (fun e => (e.1, { e.2 with current_bet := 0 })) }
      let activePlayers := (seatRefs table.seats).filter (fun s =>
        decide (s.moltbook_id ∈ game.active_players) &&
          ! hasFolded game.player_hands s.moltbook_id)
      let game2 :=
        if activePlayers.length = 0 then game1 else
        let dealerSeatIndex : Int :=
          match table.seats.findIdx? (fun s? => match s? with
            | some s => decide (game.active_players.get? game.dealer_index = some s.moltbook_id)
            | none => false) with
          | some i => (i : Int)
          | none => -1
        let nextPlayerIndex : Int :=
          ((List.range' 1 table.seats.length).findSome? (fun i =>
            let checkIndex := ((dealerSeatIndex + (i : Int)) % (table.seats.length : Int)).toNat
            match table.seats.get? checkIndex with
            | some (some seat) =>
              if decide (seat.moltbook_id ∈ game.active_players) &&
                  ! hasFolded game.player_hands seat.moltbook_id then
                some (match activePlayers.findIdx? (fun p => decide (p.moltbook_id = seat.moltbook_id)) with
                  | some j => (j : Int)
                  | none => -1)
              else none
            | _ => none)).getD (-1)
        if 0 ≤ nextPlayerIndex then
          { game1 with
            current_turn_index := nextPlayerIndex.toNat
            current_turn_player := (refAt activePlayers nextPlayerIndex.toNat).moltbook_id
            last_raiser := none }
        else game1
      let db1 : Db := ⟨{ table with game := some game2 }, db.accounts⟩
      if newPhase = .showdown then resolveShowdown db1 else db1

/-! ## The action endpoint (`server.js`, `POST /api/poker/action`) -/

/-- The code after the action `switch`: end the hand at once when a single
non-folded player remains, otherwise either close the betting round
(`allMatched && (backToRaiser || last_raiser === null || action === 'check')`)
and advance the phase, or pass the turn to the next active seat.  `game1`
and `seats1` are the locally mutated game and seats; `db` already carries
any account `$inc` the switch performed. -/
def postAction (db : Db) (pid : Nat) (actionTaken : String) (game1 : Game)
    (seats1 : List (Option Seat)) : Db × Option String :=
  let table := db.table
  let activePlayers := nonFoldedIds game1.player_hands
  if activePlayers.length = 1 then
    let game2 := { game1 with phase := .showdown }
    let db1 : Db := ⟨{ table with seats := seats1, game := some game2 }, db.accounts⟩
    (resolveShowdown db1, none)
  else
    let activeSeats := (seatRefs seats1).filter (fun s => decide (s.moltbook_id ∈ activePlayers))
    let currentSeatIndex : Int :=
      match activeSeats.findIdx? (fun s => decide (s.moltbook_id = pid)) with
      | some i => (i : Int)
      | none => -1
    let nextPlayerIndex : Nat := ((currentSeatIndex + 1) % (activeSeats.length : Int)).toNat
    let nextPlayer := refAt activeSeats nextPlayerIndex
    let allMatched := activePlayers.all (fun id =>
      match lookup game1.player_hands id with
      | some h => decide (h.current_bet = game1.current_bet) || h.folded
      | none => false)
    let lastRaiserIndex : Int :=
      match game1.last_raiser with
      | some lr =>
        (match activeSeats.findIdx? (fun s => decide (s.moltbook_id = lr)) with
         | some i => (i : Int)
         | none => -1)
      | none => -1
    let backToRaiser := decide ((nextPlayerIndex : Int) = lastRaiserIndex) && allMatched
    if allMatched && (backToRaiser || decide (game1.last_raiser = none) ||
        decide (actionTaken = "check")) then
      let db1 : Db := ⟨{ table with seats := seats1, game := some game1 }, db.accounts⟩
      (advancePhase db1, none)
    else
      let game2 := { game1 with
        current_turn_index := nextPlayerIndex
        current_turn_player := nextPlayer.moltbook_id }
      (⟨{ table with seats := seats1, game := some game2 }, db.accounts⟩, none)

/-- `action.toLowerCase()` (character-list form of `String.toLower`). -/
def toLowerStr (s : String) : String := String.mk (s.data.map Char.toLower)

/-- `parseInt(amount) || (game.current_bet * 2)`: a missing amount
(`parseInt(undefined)` is `NaN`, embedded as `none`) and a parse result of
`0` are both falsy and fall back to twice the current bet. -/
def raiseTarget (currentBet : Int) (amount : Option Int) : Int :=
  match amount with
  | none => currentBet * 2
  | some v => if v = 0 then currentBet * 2 else v

/-- The action endpoint body, from the `table.game` check onward (request
parsing, table lookup and authentication precede it and mutate nothing).
The second component is `some message` exactly on the rejection paths,
each of which returns before any write, and `none` when the action was
accepted and processed.  A missing hand for the turn holder would make
the JS throw before any write; it is unreachable from engine states. -/
def handleAction (db : Db) (pid : Nat) (action : String) (amount : Option Int) :
    Db × Option String :=
  let table := db.table
  match table.game with
  | none => (db, some "No active game at this table")
  | some game =>
  if game.current_turn_player = pid then
    match lookup game.player_hands pid with
    | none => (db, some "player hand missing")
    | some playerHand =>
      let amountToCall := game.current_bet - playerHand.current_bet
      let actionTaken := toLowerStr action
      if actionTaken = "fold" then
        let game1 := { game with
          player_hands := setKey game.player_hands pid { playerHand with folded := true } }
        postAction db pid actionTaken game1 table.seats
      else if actionTaken = "check" then
        if 0 < amountToCall then (db, some "Cannot check, must call") else
        postAction db pid actionTaken game table.seats
      else if actionTaken = "call" then
        let balance := (lookup db.accounts pid).getD 0
        let betAmount := min amountToCall balance
        let game1 := { game with
          pot := game.pot + betAmount
          player_hands := setKey game.player_hands pid
            { playerHand with
              current_bet := playerHand.current_bet + betAmount
              total_bet := playerHand.total_bet + betAmount } }
        let accounts1 := incBal db.accounts pid (-betAmount)
        let seats1 := updateSeatBalance table.seats pid (-betAmount)
        postAction ⟨table, accounts1⟩ pid actionTaken game1 seats1
      else if actionTaken = "raise" then
        let raiseAmount := raiseTarget game.current_bet amount
        if raiseAmount ≤ game.current_bet then
          (db, some "Raise must be greater than current bet")
        else
          let balance := (lookup db.accounts pid).getD 0
          let betAmount0 := raiseAmount - playerHand.current_bet
          let betAmount := if balance < betAmount0 then balance else betAmount0
          let game1 := { game with
            pot := game.pot + betAmount
            current_bet := playerHand.current_bet + betAmount
            last_raiser := some pid
            player_hands := setKey game.player_hands pid
              { playerHand with
                current_bet := playerHand.current_bet + betAmount
                total_bet := playerHand.total_bet + betAmount } }
          let accounts1 := incBal db.accounts pid (-betAmount)
          let seats1 := updateSeatBalance table.seats pid (-betAmount)
          postAction ⟨table, accounts1⟩ pid actionTaken game1 seats1
      else (db, some "Invalid action. Use: fold, check, call, or raise")
  else (db, some "Not your turn")

/-! ## `POST /api/poker/leave` (`server.js`) -/

/-- The leave endpoint's table mutation: mark the leaver folded in any
active game and clear their seat.  (Clearing `account.current_table`
touches no table or balance state and is not modelled.)  Note that it
performs none of the post-action bookkeeping: no single-player check, no
showdown, no turn advancement. -/
def leaveTable (db : Db) (pid : Nat) : Db :=
  let table := db.table
  match table.seats.findIdx? (fun s? => match s? with
    | some s => decide (s.moltbook_id = pid)
    | none => false) with
  | none => db
  | some seatIndex =>
    let game1 := match table.game with
      | some g =>
        if (lookup g.player_hands pid).isSome then
          some { g with player_hands := (modifyKey g.player_hands pid
            (fun h => { h with folded := true })) }
        else some g
      | none => none
    ⟨{ table with
        seats := table.seats.set seatIndex none
        seats_count := table.seats_count - 1
        game := game1 }, db.accounts⟩

/-! ## Invariants under scrutiny -/

/-- The pot accounting invariant: the pot equals the sum of all players'
cumulative bets this hand. -/
def potInvariant (g : Game) : Prop :=
  g.pot = (g.player_hands.map (fun e => e.2.total_bet)).sum

/-- The current-round bets of the non-folded players. -/
def nonFoldedBets (hands : List (Nat × PlayerHand)) : List Int :=
  hands.filterMap (fun e => if e.2.folded then none else some e.2.current_bet)

def maxNonFoldedBet (hands : List (Nat × PlayerHand)) : Int :=
  (nonFoldedBets hands).foldr max 0

/-- The current-bet invariant: the table's current bet is the maximum
current-round bet among non-folded players. -/
def currentBetInvariant (g : Game) : Prop :=
  g.current_bet = maxNonFoldedBet g.player_hands

instance (g : Game) : Decidable (potInvariant g) :=
  inferInstanceAs (Decidable (g.pot = _))

instance (g : Game) : Decidable (currentBetInvariant g) :=
  inferInstanceAs (Decidable (g.current_bet = _))

/-- A card as `createDeck` builds it: the stored `value` matches the rank. -/
def wellFormedCard (c : Card) : Prop := c.value = rankValue c.rank

instance (c : Card) : Decidable (wellFormedCard c) :=
  inferInstanceAs (Decidable (c.value = _))

/-- Shorthand for building a well-formed card. -/
def card (r : Rank) (s : Suit) : Card := ⟨s, r, rankValue r⟩

/-- Cards in descending stored value. -/
def descendingValues (cs : List Card) : Prop := List.Sorted cardDescR cs

/-! ## Concrete states used in counterexamples and witnesses -/

/-- Pre-flop, three players `1, 2, 3` (blinds already posted by `2` and
`3`), current bet 2, first to act player `1` whose account balance is
only 1: the state for an all-in raise for less than the proposed total. -/
def gShortRaise : Game := {
  phase := .pre_flop
  deck := []
  community_cards := []
  pot := 3
  current_bet := 2
  player_hands := [(1, ⟨[], false, 0, 0⟩), (2, ⟨[], false, 1, 1⟩), (3, ⟨[], false, 2, 2⟩)]
  active_players := [1, 2, 3]
  dealer_index := 0
  current_turn_index := 0
  current_turn_player := 1
  last_raiser := some 3
  hand_number := 1
  winners := none }

def dbShortRaise : Db :=
  ⟨⟨[some ⟨1, 1⟩, some ⟨2, 9⟩, some ⟨3, 8⟩], 3, "playing", some gShortRaise⟩,
   [(1, 1), (2, 9), (3, 8)]⟩

/-- The state at the start of a flop betting street with three players:
exactly what `advancePhase` produces when the pre-flop round closes —
community cards dealt, every current-round bet and the current bet reset
to 0, `last_raiser` cleared, nobody has acted yet on this street. -/
def gFlopStart : Game := {
  phase := .flop
  deck := [card .r8 .clubs, card .r4 .hearts]
  community_cards := [card .r2 .hearts, card .r7 .diamonds, card .rJ .spades]
  pot := 6
  current_bet := 0
  player_hands := [(1, ⟨[], false, 0, 2⟩), (2, ⟨[], false, 0, 2⟩), (3, ⟨[], false, 0, 2⟩)]
  active_players := [1, 2, 3]
  dealer_index := 0
  current_turn_index := 1
  current_turn_player := 2
  last_raiser := none
  hand_number := 1
  winners := none }

def dbFlopStart : Db :=
  ⟨⟨[some ⟨1, 8⟩, some ⟨2, 8⟩, some ⟨3, 8⟩], 3, "playing", some gFlopStart⟩,
   [(1, 8), (2, 8), (3, 8)]⟩

/-- Pre-flop heads-up state: player `1` (small blind, to act) and player
`2` (big blind); a fold by `1` leaves exactly one non-folded player. -/
def gHeadsUp : Game := {
  phase := .pre_flop
  deck := []
  community_cards := []
  pot := 3
  current_bet := 2
  player_hands := [(1, ⟨[card .r2 .hearts, card .r3 .clubs], false, 1, 1⟩),
                   (2, ⟨[card .r4 .hearts, card .r5 .clubs], false, 2, 2⟩)]
  active_players := [1, 2]
  dealer_index := 0
  current_turn_index := 0
  current_turn_player := 1
  last_raiser := some 2
  hand_number := 1
  winners := none }

def dbHeadsUp : Db :=
  ⟨⟨[some ⟨1, 99⟩, some ⟨2, 98⟩, none], 2, "playing", some gHeadsUp⟩,
   [(1, 99), (2, 98)]⟩

/-- Flop state where player `1` (balance 5, round bet 0) faces a current
bet of 20 put in by player `2`: the spec's all-in call example. -/
def gShortCall : Game := {
  phase := .flop
  deck := [card .r8 .clubs]
  community_cards := [card .r2 .hearts, card .r7 .diamonds, card .rJ .spades]
  pot := 24
  current_bet := 20
  player_hands := [(1, ⟨[], false, 0, 2⟩), (2, ⟨[], false, 20, 22⟩)]
  active_players := [1, 2]
  dealer_index := 0
  current_turn_index := 0
  current_turn_player := 1
  last_raiser := some 2
  hand_number := 1
  winners := none }

def dbShortCall : Db :=
  ⟨⟨[some ⟨1, 5⟩, some ⟨2, 78⟩, none], 2, "playing", some gShortCall⟩,
   [(1, 5), (2, 78)]⟩

/-- A fresh two-player table with no game yet, to exercise `startNewHand`. -/
def dbFreshTable : Db :=
  ⟨⟨[some ⟨1, 100⟩, some ⟨2, 100⟩, none], 2, "waiting", none⟩,
   [(1, 100), (2, 100)]⟩

/-- The state `startNewHand` produces from `dbFreshTable` on the unshuffled
fresh deck. -/
def dbFreshDealt : Db := (startNewHand dbFreshTable createDeck).getD dbFreshTable

def gFreshDealt : Game := dbFreshDealt.table.game.getD gHeadsUp

/-- The game state after player 2 checks in `dbFlopStart`. -/
def gFlopAfterCheck : Game :=
  ((handleAction dbFlopStart 2 "check" none).1.table.game).getD gHeadsUp

/-- The game state after player 1 folds in `dbHeadsUp`. -/
def gHeadsUpFold : Game :=
  ((handleAction dbHeadsUp 1 "fold" none).1.table.game).getD gHeadsUp

/-- The game state after player 1 calls in `dbHeadsUp`. -/
def gHeadsUpCall : Game :=
  ((handleAction dbHeadsUp 1 "call" none).1.table.game).getD gHeadsUp

/-! # Theorems -/

/-! ## Association-list and fold lemmas -/

theorem lookup_incBal_self (a : List (Nat × Int)) (k : Nat) (d : Int) :
    lookup (incBal a k d) k = (lookup a k).map (· + d) := by
  induction a with
  | nil => rfl
  | cons e t ih =>
    by_cases h : e.1 = k
    · simp [incBal, lookup, List.find?_cons_of_pos, h]
    · simp only [incBal, lookup, List.map_cons, if_neg h] at ih ⊢
      rw [List.find?_cons_of_neg, List.find?_cons_of_neg]
      · exact ih
      · simpa using h
      · simpa using h

theorem lookup_eq_some_of_mem_keys {α : Type} (m : List (Nat × α)) (k : Nat)
    (h : k ∈ m.map Prod.fst) : ∃ v, lookup m k = some v := by
  induction m with
  | nil => simp at h
  | cons e t ih =>
    by_cases he : e.1 = k
    · exact ⟨e.2, by simp [lookup, List.find?_cons_of_pos, he]⟩
    · simp only [List.map_cons, List.mem_cons] at h
      rcases h with h | h
      · exact absurd h.symm he
      · rcases ih h with ⟨v, hv⟩
        refine ⟨v, ?_⟩
        simp only [lookup] at hv ⊢
        rw [List.find?_cons_of_neg]
        · exact hv
        · simpa using he

theorem lookup_mem {α : Type} (m : List (Nat × α)) (k : Nat) (v : α)
    (h : lookup m k = some v) : (k, v) ∈ m := by
  induction m with
  | nil => simp [lookup] at h
  | cons e t ih =>
    by_cases he : e.1 = k
    · have h2 : e.2 = v := by
        simp [lookup, List.find?_cons_of_pos, he] at h
        exact h
      have hkv : (k, v) = e := by
        have := Prod.mk.eta (p := e)
        rw [← this, ← he, ← h2]
      rw [hkv]
      exact List.mem_cons_self _ _
    · simp only [lookup] at h ih
      rw [List.find?_cons_of_neg _ (by simpa using he)] at h
      exact List.mem_cons_of_mem _ (ih h)

theorem setKey_eq_of_not_mem {α : Type} (m : List (Nat × α)) (k : Nat) (w : α)
    (h : k ∉ m.map Prod.fst) : setKey m k w = m := by
  induction m with
  | nil => rfl
  | cons e t ih =>
    simp only [List.map_cons, List.mem_cons, not_or] at h
    have ht := ih h.2
    simp only [setKey] at ht ⊢
    rw [List.map_cons, ht, if_neg (fun he : e.1 = k => h.1 he.symm)]

theorem sum_map_setKey (m : List (Nat × PlayerHand)) (k : Nat) (v w : PlayerHand)
    (f : PlayerHand → Int)
    (hnd : (m.map Prod.fst).Nodup) (hv : lookup m k = some v) :
    ((setKey m k w).map (fun e => f e.2)).sum =
      (m.map (fun e => f e.2)).sum - f v + f w := by
  induction m with
  | nil => simp [lookup] at hv
  | cons e t ih =>
    simp only [List.map_cons, List.nodup_cons] at hnd
    by_cases he : e.1 = k
    · have hv' : v = e.2 := by
        simp [lookup, List.find?_cons_of_pos, he] at hv
        exact hv.symm
      have ht : setKey t k w = t := setKey_eq_of_not_mem t k w (he ▸ hnd.1)
      simp only [setKey, List.map_cons, if_pos he] at ht ⊢
      rw [ht, hv']
      simp only [List.sum_cons]
      ring
    · have hv' : lookup t k = some v := by
        simp only [lookup] at hv ⊢
        rwa [List.find?_cons_of_neg _ (by simpa using he)] at hv
      have ihx := ih hnd.2 hv'
      simp only [setKey, List.map_cons, if_neg he] at ihx ⊢
      rw [List.sum_cons, List.sum_cons, ihx]
      ring

theorem sum_map_modifyKey (m : List (Nat × PlayerHand)) (k : Nat) (v : PlayerHand)
    (g : PlayerHand → PlayerHand) (f : PlayerHand → Int)
    (hnd : (m.map Prod.fst).Nodup) (hv : lookup m k = some v) :
    ((modifyKey m k g).map (fun e => f e.2)).sum =
      (m.map (fun e => f e.2)).sum - f v + f (g v) := by
  induction m with
  | nil => simp [lookup] at hv
  | cons e t ih =>
    simp only [List.map_cons, List.nodup_cons] at hnd
    by_cases he : e.1 = k
    · have hv' : v = e.2 := by
        simp [lookup, List.find?_cons_of_pos, he] at hv
        exact hv.symm
      have ht : List.map (fun e' => if e'.1 = k then (e'.1, g e'.2) else e') t = t := by
        have h1 : ∀ e' ∈ t, (if e'.1 = k then (e'.1, g e'.2) else e') = id e' := by
          intro e' he'
          simp only [id]
          rw [if_neg]
          intro hk
          exact hnd.1 (by rw [he, ← hk]; exact List.mem_map_of_mem Prod.fst he')
        rw [List.map_congr_left h1, List.map_id]
      simp only [modifyKey, List.map_cons, if_pos he] at ht ⊢
      rw [ht, hv']
      simp only [List.sum_cons]
      ring
    · have hv' : lookup t k = some v := by
        simp only [lookup] at hv ⊢
        rwa [List.find?_cons_of_neg _ (by simpa using he)] at hv
      have ihx := ih hnd.2 hv'
      simp only [modifyKey, List.map_cons, if_neg he] at ihx ⊢
      rw [List.sum_cons, List.sum_cons, ihx]
      ring

theorem lookup_unique {α : Type} (m : List (Nat × α)) (k : Nat) (v : α)
    (hnd : (m.map Prod.fst).Nodup) (hv : lookup m k = some v) :
    ∀ e ∈ m, e.1 = k → e.2 = v := by
  induction m with
  | nil => simp
  | cons e t ih =>
    simp only [List.map_cons, List.nodup_cons] at hnd
    intro e' he' hk
    rcases List.mem_cons.1 he' with h | h
    · subst h
      simp [lookup, List.find?_cons_of_pos, hk] at hv
      exact hv
    · by_cases he1 : e.1 = k
      · exact absurd (hk ▸ List.mem_map_of_mem Prod.fst h) (he1 ▸ hnd.1)
      · have hv' : lookup t k = some v := by
          simp only [lookup] at hv ⊢
          rwa [List.find?_cons_of_neg _ (by simpa using he1)] at hv
        exact ih hnd.2 hv' e' h hk

theorem nonFoldedIds_setKey_congr (hands : List (Nat × PlayerHand)) (k : Nat)
    (w : PlayerHand)
    (hsame : ∀ e ∈ hands, e.1 = k → e.2.folded = w.folded) :
    nonFoldedIds (setKey hands k w) = nonFoldedIds hands := by
  unfold nonFoldedIds setKey
  rw [List.filterMap_map]
  refine List.filterMap_congr (fun e he => ?_)
  simp only [Function.comp]
  by_cases hk : e.1 = k
  · rw [if_pos hk, ← hsame e he hk, hk]
  · rw [if_neg hk]

theorem nonFoldedBets_setKey_decomp (hands : List (Nat × PlayerHand)) (k : Nat)
    (v w : PlayerHand)
    (hnd : (hands.map Prod.fst).Nodup) (hv : lookup hands k = some v) :
    ∃ L1 L2,
      nonFoldedBets hands =
        L1 ++ ((if v.folded then [] else [v.current_bet]) ++ L2) ∧
      nonFoldedBets (setKey hands k w) =
        L1 ++ ((if w.folded then [] else [w.current_bet]) ++ L2) := by
  induction hands with
  | nil => simp [lookup] at hv
  | cons e t ih =>
    simp only [List.map_cons, List.nodup_cons] at hnd
    by_cases he : e.1 = k
    · have hv' : v = e.2 := by
        simp [lookup, List.find?_cons_of_pos, he] at hv
        exact hv.symm
      have ht : setKey t k w = t := setKey_eq_of_not_mem t k w (he ▸ hnd.1)
      refine ⟨[], nonFoldedBets t, ?_, ?_⟩
      · simp only [nonFoldedBets, List.filterMap_cons, hv', List.nil_append]
        by_cases hf : e.2.folded <;> simp [hf]
      · simp only [setKey, List.map_cons, if_pos he]
        have ht' : List.map (fun e => if e.1 = k then (k, w) else e) t = t := by
          simpa [setKey] using ht
        rw [ht']
        simp only [nonFoldedBets, List.filterMap_cons, List.nil_append]
        by_cases hf : w.folded <;> simp [hf]
    · have hv' : lookup t k = some v := by
        simp only [lookup] at hv ⊢
        rwa [List.find?_cons_of_neg _ (by simpa using he)] at hv
      rcases ih hnd.2 hv' with ⟨L1, L2, h1, h2⟩
      refine ⟨(if e.2.folded then [] else [e.2.current_bet]) ++ L1, L2, ?_, ?_⟩
      · simp only [nonFoldedBets, List.filterMap_cons] at h1 ⊢
        by_cases hf : e.2.folded <;> simp [hf, h1]
      · simp only [setKey, List.map_cons, if_neg he]
        simp only [nonFoldedBets, List.filterMap_cons] at h2 ⊢
        by_cases hf : e.2.folded <;> simp [hf, setKey] at h2 ⊢ <;> exact h2

theorem foldr_max_nonneg (l : List Int) : 0 ≤ l.foldr max 0 := by
  induction l with
  | nil => simp
  | cons a t ih =>
    simp only [List.foldr_cons]
    exact le_trans ih (le_max_right a _)

theorem le_foldr_max (l : List Int) (x : Int) (hx : x ∈ l) :
    x ≤ l.foldr max 0 := by
  induction l with
  | nil => simp at hx
  | cons a t ih =>
    simp only [List.foldr_cons]
    rcases List.mem_cons.1 hx with h | h
    · rw [h]; exact le_max_left _ _
    · exact le_trans (ih h) (le_max_right _ _)

theorem foldr_max_le (l : List Int) (C : Int) (h0 : 0 ≤ C)
    (hall : ∀ x ∈ l, x ≤ C) : l.foldr max 0 ≤ C := by
  induction l with
  | nil => simpa
  | cons a t ih =>
    simp only [List.foldr_cons, max_le_iff]
    exact ⟨hall a (List.mem_cons_self _ _),
           ih (fun x hx => hall x (List.mem_cons_of_mem _ hx))⟩

theorem foldr_max_eq (l : List Int) (C : Int) (h0 : 0 ≤ C) (hmem : C ∈ l)
    (hall : ∀ x ∈ l, x ≤ C) : l.foldr max 0 = C :=
  le_antisymm (foldr_max_le l C h0 hall) (le_foldr_max l C hmem)

theorem foldr_max_eq_zero (l : List Int) (hall : ∀ x ∈ l, x ≤ 0) :
    l.foldr max 0 = 0 :=
  le_antisymm (foldr_max_le l 0 le_rfl hall) (foldr_max_nonneg l)

/-- The ids of `resolveShowdown`'s `remainingPlayers` are exactly the
non-folded ids, in order. -/
theorem showdown_ids (hands : List (Nat × PlayerHand)) :
    (hands.filterMap (fun e => if e.2.folded then none else
       some (⟨e.1, e.2.hole_cards, e.2.total_bet⟩ : ShowdownPlayer))).map
        (·.moltbook_id) = nonFoldedIds hands := by
  induction hands with
  | nil => rfl
  | cons e t ih =>
    by_cases hf : e.2.folded
    · simpa [nonFoldedIds, List.filterMap_cons, hf] using ih
    · simpa [nonFoldedIds, List.filterMap_cons, hf] using ih

theorem keys_modifyKey {α : Type} (m : List (Nat × α)) (k : Nat) (f : α → α) :
    (modifyKey m k f).map Prod.fst = m.map Prod.fst := by
  unfold modifyKey
  rw [List.map_map]
  refine List.map_congr_left (fun e _ => ?_)
  by_cases h : e.1 = k
  · simp [h]
  · simp [h]

theorem lookup_modifyKey_ne {α : Type} (m : List (Nat × α)) (k k' : Nat)
    (f : α → α) (hne : ¬ k' = k) :
    lookup (modifyKey m k f) k' = lookup m k' := by
  induction m with
  | nil => rfl
  | cons e t ih =>
    by_cases h : e.1 = k'
    · have hek : ¬ e.1 = k := fun hk => hne (h ▸ hk)
      simp only [modifyKey, List.map_cons, if_neg hek]
      simp only [lookup]
      rw [List.find?_cons_of_pos _ (by simp [h]), List.find?_cons_of_pos _ (by simp [h])]
    · by_cases hek : e.1 = k
      · simp only [modifyKey, List.map_cons, if_pos hek]
        simp only [lookup] at ih ⊢
        rw [List.find?_cons_of_neg _ (by simpa using h),
          List.find?_cons_of_neg _ (by simpa using h)]
        exact ih
      · simp only [modifyKey, List.map_cons, if_neg hek]
        simp only [lookup] at ih ⊢
        rw [List.find?_cons_of_neg _ (by simpa using h),
          List.find?_cons_of_neg _ (by simpa using h)]
        exact ih

/-- Keys produced by `startNewHand`'s dealing loop: the accumulator's
keys followed by the active players' ids, in order. -/
theorem deal_fold_keys (ps : List SeatRef) :
    ∀ (acc : List (Nat × PlayerHand)) (dk : List Card),
    ((ps.foldl (fun (acc : List (Nat × PlayerHand) × List Card) p =>
        let d := dealCards acc.2 2
        (acc.1 ++ [(p.moltbook_id, ⟨d.1, false, 0, 0⟩)], d.2)) (acc, dk)).1).map
        Prod.fst = acc.map Prod.fst ++ ps.map (·.moltbook_id) := by
  induction ps with
  | nil => intro acc dk; simp
  | cons p t ih =>
    intro acc dk
    simp only [List.foldl_cons]
    rw [ih]
    simp

/-- Every hand record produced by the dealing loop starts unfolded with
zero bets. -/
theorem deal_fold_zero (ps : List SeatRef) :
    ∀ (acc : List (Nat × PlayerHand)) (dk : List Card),
    ∀ e ∈ (ps.foldl (fun (acc : List (Nat × PlayerHand) × List Card) p =>
        let d := dealCards acc.2 2
        (acc.1 ++ [(p.moltbook_id, ⟨d.1, false, 0, 0⟩)], d.2)) (acc, dk)).1,
      e ∈ acc ∨ (e.2.folded = false ∧ e.2.current_bet = 0 ∧ e.2.total_bet = 0) := by
  induction ps with
  | nil => intro acc dk e he; exact Or.inl he
  | cons p t ih =>
    intro acc dk e he
    simp only [List.foldl_cons] at he
    rcases ih _ _ e he with h | h
    · rcases List.mem_append.1 h with h2 | h2
      · exact Or.inl h2
      · right
        rcases List.mem_singleton.1 h2 with rfl
        exact ⟨rfl, rfl, rfl⟩
    · exact Or.inr h

theorem refAt_mem (l : List SeatRef) (i : Nat) (hi : i < l.length) :
    refAt l i ∈ l := by
  unfold refAt
  rw [List.get?_eq_get hi]
  exact List.get_mem _ _ _

theorem refAt_id_ne (l : List SeatRef) (i j : Nat) (hi : i < l.length)
    (hj : j < l.length) (hij : ¬ i = j)
    (hnd : (l.map (·.moltbook_id)).Nodup) :
    ¬ (refAt l i).moltbook_id = (refAt l j).moltbook_id := by
  intro heq
  apply hij
  have hi' : i < (l.map (·.moltbook_id)).length := by simpa using hi
  have hj' : j < (l.map (·.moltbook_id)).length := by simpa using hj
  have hget : (l.map (·.moltbook_id))[i] = (l.map (·.moltbook_id))[j] := by
    rw [List.getElem_map, List.getElem_map]
    unfold refAt at heq
    rw [List.get?_eq_get hi, List.get?_eq_get hj] at heq
    simpa [List.get_eq_getElem] using heq
  exact hnd.getElem_inj_iff.1 hget

theorem mod_succ_succ_ne (d n : Nat) (hn : 2 ≤ n) :
    ¬ (d + 1) % n = (d + 2) % n := by
  intro h
  have hmod : Nat.ModEq n (d + 1) (d + 2) := h
  have hdvd : n ∣ (d + 2) - (d + 1) := (Nat.modEq_iff_dvd' (by omega)).1 hmod
  have : n ∣ 1 := by simpa using hdvd
  have := Nat.le_of_dvd (by omega) this
  omega

/-- Posting the two blinds on fresh zero-bet hands makes the cumulative
bets sum to exactly small + big. -/
theorem blinds_sum (hands0 : List (Nat × PlayerHand)) (sb bb : Nat)
    (hkn : (hands0.map Prod.fst).Nodup)
    (hzero : ∀ e ∈ hands0, e.2.total_bet = 0)
    (hsb : sb ∈ hands0.map Prod.fst) (hbb : bb ∈ hands0.map Prod.fst)
    (hne : ¬ bb = sb) :
    ((modifyKey (modifyKey hands0 sb
        (fun h => { h with current_bet := BLINDS_SMALL, total_bet := BLINDS_SMALL })) bb
        (fun h => { h with current_bet := BLINDS_BIG, total_bet := BLINDS_BIG })).map
      (fun e => e.2.total_bet)).sum = BLINDS_SMALL + BLINDS_BIG := by
  obtain ⟨v, hv⟩ := lookup_eq_some_of_mem_keys _ _ hsb
  have hv0 : v.total_bet = 0 := hzero _ (lookup_mem _ _ _ hv)
  have hsum0 : (hands0.map (fun e => e.2.total_bet)).sum = 0 := by
    apply List.sum_eq_zero
    intro x hx
    rcases List.mem_map.1 hx with ⟨e, he, rfl⟩
    exact hzero e he
  have h1 := sum_map_modifyKey hands0 sb v
    (fun h => { h with current_bet := BLINDS_SMALL, total_bet := BLINDS_SMALL })
    (fun h => h.total_bet) hkn hv
  have hkn1 : ((modifyKey hands0 sb
      (fun h => { h with current_bet := BLINDS_SMALL, total_bet := BLINDS_SMALL })).map
      Prod.fst).Nodup := by
    rw [keys_modifyKey]
    exact hkn
  obtain ⟨v2, hv2⟩ : ∃ v2, lookup (modifyKey hands0 sb
      (fun h => { h with current_bet := BLINDS_SMALL, total_bet := BLINDS_SMALL })) bb =
      some v2 := by
    apply lookup_eq_some_of_mem_keys
    rw [keys_modifyKey]
    exact hbb
  have hv2o : lookup hands0 bb = some v2 := by
    rw [← lookup_modifyKey_ne hands0 sb bb _ hne]
    exact hv2
  have hv20 : v2.total_bet = 0 := hzero _ (lookup_mem _ _ _ hv2o)
  have h2 := sum_map_modifyKey _ bb v2
    (fun h => { h with current_bet := BLINDS_BIG, total_bet := BLINDS_BIG })
    (fun h => h.total_bet) hkn1 hv2
  rw [h2, h1, hsum0]
  simp only [hv0, hv20]
  unfold BLINDS_SMALL BLINDS_BIG
  norm_num

/-- `resolveShowdown` only moves the phase to `waiting` and possibly
fills the winners field; pot, player hands, community cards, deck and
bets of the game record are untouched. -/
theorem resolveShowdown_game_shape (db : Db) (g : Game)
    (hg : db.table.game = some g) :
    ∃ w, (resolveShowdown db).table.game =
      some { g with phase := Phase.waiting, winners := w } := by
  simp only [resolveShowdown, hg]
  split
  · exact ⟨g.winners, rfl⟩
  · exact ⟨_, rfl⟩

/-- `resolveShowdown_game_shape` specialised to a literal state. -/
theorem resolveShowdown_mk_shape (ss : List (Option Seat)) (sc : Int)
    (st : String) (a : List (Nat × Int)) (g : Game) :
    ∃ w, (resolveShowdown ⟨⟨ss, sc, st, some g⟩, a⟩).table.game =
      some { g with phase := Phase.waiting, winners := w } :=
  resolveShowdown_game_shape ⟨⟨ss, sc, st, some g⟩, a⟩ g rfl

/-- `resolveShowdown` with exactly one non-folded player: the full pot is
credited to that player's account and seat, no evaluation output is
produced, and the game closes with everything else unchanged. -/
theorem resolveShowdown_single (db : Db) (g : Game) (w : Nat)
    (hg : db.table.game = some g)
    (hone : nonFoldedIds g.player_hands = [w]) :
    resolveShowdown db =
      ⟨{ db.table with
          seats := updateSeatBalance db.table.seats w g.pot
          status := "hand_complete"
          game := some { g with phase := Phase.waiting } },
        incBal db.accounts w g.pot⟩ := by
  have hids := showdown_ids g.player_hands
  rw [hone] at hids
  have hlen : (g.player_hands.filterMap (fun e => if e.2.folded then none else
      some (⟨e.1, e.2.hole_cards, e.2.total_bet⟩ : ShowdownPlayer))).length = 1 := by
    have := congrArg List.length hids
    simpa using this
  rcases List.length_eq_one.1 hlen with ⟨p, hp⟩
  have hw : p.moltbook_id = w := by
    rw [hp] at hids
    simpa using hids
  simp only [resolveShowdown, hg]
  rw [if_pos hlen, hp]
  simp only [List.head?_cons, Option.getD_some, hw]

/-- `resolveShowdown_single` specialised to a literal state. -/
theorem resolveShowdown_mk_single (ss : List (Option Seat)) (sc : Int)
    (st : String) (a : List (Nat × Int)) (g : Game) (w : Nat)
    (hone : nonFoldedIds g.player_hands = [w]) :
    resolveShowdown ⟨⟨ss, sc, st, some g⟩, a⟩ =
      ⟨⟨updateSeatBalance ss w g.pot, sc, "hand_complete",
        some { g with phase := Phase.waiting }⟩, incBal a w g.pot⟩ :=
  resolveShowdown_single ⟨⟨ss, sc, st, some g⟩, a⟩ g w rfl hone

/-- Advancing from a pre-showdown street: the next phase is entered, all
current-round bets and the current bet are zeroed, and accounts, seats,
status, pot and the rest of each player's hand are unchanged. -/
theorem advancePhase_street (db : Db) (g : Game) (hg : db.table.game = some g)
    (hph : g.phase = Phase.pre_flop ∨ g.phase = Phase.flop ∨ g.phase = Phase.turn) :
    ∃ g', (advancePhase db).table.game = some g' ∧
      (advancePhase db).accounts = db.accounts ∧
      (advancePhase db).table.seats = db.table.seats ∧
      (advancePhase db).table.status = db.table.status ∧
      g'.pot = g.pot ∧ g'.current_bet = 0 ∧
      g'.player_hands = g.player_hands.map (fun e => (e.1, { e.2 with current_bet := 0 })) ∧
      g'.phase = (match g.phase with
        | Phase.pre_flop => Phase.flop
        | Phase.flop => Phase.turn
        | Phase.turn => Phase.river
        | p => p) := by
  rcases hph with h | h | h
  · simp only [advancePhase, hg, h]
    rw [if_neg (by decide : ¬ (Phase.flop = Phase.showdown))]
    split
    · exact ⟨_, rfl, rfl, rfl, rfl, rfl, rfl, rfl, rfl⟩
    · split
      · exact ⟨_, rfl, rfl, rfl, rfl, rfl, rfl, rfl, rfl⟩
      · exact ⟨_, rfl, rfl, rfl, rfl, rfl, rfl, rfl, rfl⟩
  · simp only [advancePhase, hg, h]
    rw [if_neg (by decide : ¬ (Phase.turn = Phase.showdown))]
    split
    · exact ⟨_, rfl, rfl, rfl, rfl, rfl, rfl, rfl, rfl⟩
    · split
      · exact ⟨_, rfl, rfl, rfl, rfl, rfl, rfl, rfl, rfl⟩
      · exact ⟨_, rfl, rfl, rfl, rfl, rfl, rfl, rfl, rfl⟩
  · simp only [advancePhase, hg, h]
    rw [if_neg (by decide : ¬ (Phase.river = Phase.showdown))]
    split
    · exact ⟨_, rfl, rfl, rfl, rfl, rfl, rfl, rfl, rfl⟩
    · split
      · exact ⟨_, rfl, rfl, rfl, rfl, rfl, rfl, rfl, rfl⟩
      · exact ⟨_, rfl, rfl, rfl, rfl, rfl, rfl, rfl, rfl⟩

/-- `advancePhase` does nothing from `waiting` or `showdown` (the JS
`default: return`). -/
theorem advancePhase_nostreet (db : Db) (g : Game) (hg : db.table.game = some g)
    (hph : g.phase = Phase.waiting ∨ g.phase = Phase.showdown) :
    advancePhase db = db := by
  rcases hph with h | h <;> simp [advancePhase, hg, h]

/-- `advancePhase` never changes the pot or any player's cumulative bet. -/
theorem advancePhase_pot_totals (db : Db) (g : Game) (hg : db.table.game = some g) :
    ∃ g', (advancePhase db).table.game = some g' ∧ g'.pot = g.pot ∧
      g'.player_hands.map (fun e => e.2.total_bet) =
        g.player_hands.map (fun e => e.2.total_bet) := by
  cases hph : g.phase
  case waiting =>
    rw [advancePhase_nostreet db g hg (Or.inl hph)]
    exact ⟨g, hg, rfl, rfl⟩
  case showdown =>
    rw [advancePhase_nostreet db g hg (Or.inr hph)]
    exact ⟨g, hg, rfl, rfl⟩
  case pre_flop =>
    obtain ⟨g', h1, _, _, _, hpot, _, hhands, _⟩ :=
      advancePhase_street db g hg (Or.inl hph)
    exact ⟨g', h1, hpot, by rw [hhands, List.map_map]; rfl⟩
  case flop =>
    obtain ⟨g', h1, _, _, _, hpot, _, hhands, _⟩ :=
      advancePhase_street db g hg (Or.inr (Or.inl hph))
    exact ⟨g', h1, hpot, by rw [hhands, List.map_map]; rfl⟩
  case turn =>
    obtain ⟨g', h1, _, _, _, hpot, _, hhands, _⟩ :=
      advancePhase_street db g hg (Or.inr (Or.inr hph))
    exact ⟨g', h1, hpot, by rw [hhands, List.map_map]; rfl⟩
  case river =>
    simp only [advancePhase, hg, hph]
    rw [if_pos trivial]
    split
    · obtain ⟨w, hw⟩ := resolveShowdown_mk_shape _ _ _ _ _
      exact ⟨_, hw, rfl, by rw [List.map_map]; rfl⟩
    · split
      · obtain ⟨w, hw⟩ := resolveShowdown_mk_shape _ _ _ _ _
        exact ⟨_, hw, rfl, by rw [List.map_map]; rfl⟩
      · obtain ⟨w, hw⟩ := resolveShowdown_mk_shape _ _ _ _ _
        exact ⟨_, hw, rfl, by rw [List.map_map]; rfl⟩

/-- `advancePhase_pot_totals` specialised to a literal state. -/
theorem advancePhase_mk_pot_totals (ss : List (Option Seat)) (sc : Int)
    (st : String) (a : List (Nat × Int)) (g : Game) :
    ∃ g', (advancePhase ⟨⟨ss, sc, st, some g⟩, a⟩).table.game = some g' ∧
      g'.pot = g.pot ∧
      g'.player_hands.map (fun e => e.2.total_bet) =
        g.player_hands.map (fun e => e.2.total_bet) :=
  advancePhase_pot_totals ⟨⟨ss, sc, st, some g⟩, a⟩ g rfl

/-- `advancePhase_street` specialised to a literal state. -/
theorem advancePhase_mk_street (ss : List (Option Seat)) (sc : Int)
    (st : String) (a : List (Nat × Int)) (g : Game)
    (hph : g.phase = Phase.pre_flop ∨ g.phase = Phase.flop ∨ g.phase = Phase.turn) :
    ∃ g', (advancePhase ⟨⟨ss, sc, st, some g⟩, a⟩).table.game = some g' ∧
      (advancePhase ⟨⟨ss, sc, st, some g⟩, a⟩).accounts = a ∧
      (advancePhase ⟨⟨ss, sc, st, some g⟩, a⟩).table.seats = ss ∧
      (advancePhase ⟨⟨ss, sc, st, some g⟩, a⟩).table.status = st ∧
      g'.pot = g.pot ∧ g'.current_bet = 0 ∧
      g'.player_hands = g.player_hands.map (fun e => (e.1, { e.2 with current_bet := 0 })) ∧
      g'.phase = (match g.phase with
        | Phase.pre_flop => Phase.flop
        | Phase.flop => Phase.turn
        | Phase.turn => Phase.river
        | p => p) :=
  advancePhase_street ⟨⟨ss, sc, st, some g⟩, a⟩ g rfl hph

/-- The post-switch code never changes the pot or any cumulative bet. -/
theorem postAction_pot_totals (db : Db) (pid : Nat) (act : String) (g1 : Game)
    (s1 : List (Option Seat)) :
    ∃ g', (postAction db pid act g1 s1).1.table.game = some g' ∧
      g'.pot = g1.pot ∧
      g'.player_hands.map (fun e => e.2.total_bet) =
        g1.player_hands.map (fun e => e.2.total_bet) := by
  simp only [postAction]
  split
  · obtain ⟨w, hw⟩ := resolveShowdown_mk_shape _ _ _ _ { g1 with phase := Phase.showdown }
    exact ⟨_, hw, rfl, rfl⟩
  · split
    · obtain ⟨g', h1, h2, h3⟩ := advancePhase_mk_pot_totals _ _ _ _ g1
      exact ⟨g', h1, h2, h3⟩
    · exact ⟨_, rfl, rfl, rfl⟩

/-- Before the river, the post-switch code of an action that leaves at
least two non-folded players touches no account balance. -/
theorem postAction_accounts (db : Db) (pid : Nat) (act : String) (g1 : Game)
    (s1 : List (Option Seat))
    (hne : ¬ (nonFoldedIds g1.player_hands).length = 1)
    (hph : g1.phase = Phase.pre_flop ∨ g1.phase = Phase.flop ∨ g1.phase = Phase.turn) :
    (postAction db pid act g1 s1).1.accounts = db.accounts := by
  simp only [postAction]
  rw [if_neg hne]
  split
  · obtain ⟨g', _, hacc, _⟩ := advancePhase_mk_street _ _ _ _ g1 hph
    exact hacc
  · rfl

/-- Both branches of the post-switch code answer with no error: every
rejection of an action happens before it. -/
theorem postAction_snd (db : Db) (pid : Nat) (act : String) (g1 : Game)
    (s1 : List (Option Seat)) : (postAction db pid act g1 s1).2 = none := by
  unfold postAction
  dsimp only
  split
  · rfl
  · split
    · rfl
    · rfl

/-- Equation for an accepted fold. -/
theorem handleAction_fold_eq (db : Db) (pid : Nat) (act : String)
    (amt : Option Int) (g : Game) (ph : PlayerHand)
    (hg : db.table.game = some g) (ht : g.current_turn_player = pid)
    (hph : lookup g.player_hands pid = some ph)
    (hact : toLowerStr act = "fold") :
    handleAction db pid act amt =
      postAction db pid "fold"
        { g with player_hands := setKey g.player_hands pid { ph with folded := true } }
        db.table.seats := by
  simp only [handleAction, hg, hph, hact]
  rw [if_pos ht, if_pos trivial]

/-- Equation for an accepted check. -/
theorem handleAction_check_eq (db : Db) (pid : Nat) (act : String)
    (amt : Option Int) (g : Game) (ph : PlayerHand)
    (hg : db.table.game = some g) (ht : g.current_turn_player = pid)
    (hph : lookup g.player_hands pid = some ph)
    (hact : toLowerStr act = "check")
    (hle : ¬ 0 < g.current_bet - ph.current_bet) :
    handleAction db pid act amt = postAction db pid "check" g db.table.seats := by
  simp only [handleAction, hg, hph, hact]
  rw [if_pos ht, if_neg (by decide : ¬ ("check" = "fold")),
    if_pos trivial, if_neg hle]

/-- Equation for a rejected check (facing a positive amount to call). -/
theorem handleAction_check_reject (db : Db) (pid : Nat) (act : String)
    (amt : Option Int) (g : Game) (ph : PlayerHand)
    (hg : db.table.game = some g) (ht : g.current_turn_player = pid)
    (hph : lookup g.player_hands pid = some ph)
    (hact : toLowerStr act = "check")
    (hgt : 0 < g.current_bet - ph.current_bet) :
    handleAction db pid act amt = (db, some "Cannot check, must call") := by
  simp only [handleAction, hg, hph, hact]
  rw [if_pos ht, if_neg (by decide : ¬ ("check" = "fold")),
    if_pos trivial, if_pos hgt]

/-- Equation for a call (the switch performs the account `$inc` and the
seat/game mutations before the common post-switch code runs). -/
theorem handleAction_call_eq (db : Db) (pid : Nat) (act : String)
    (amt : Option Int) (g : Game) (ph : PlayerHand)
    (hg : db.table.game = some g) (ht : g.current_turn_player = pid)
    (hph : lookup g.player_hands pid = some ph)
    (hact : toLowerStr act = "call") :
    handleAction db pid act amt =
      postAction ⟨db.table, incBal db.accounts pid
          (-(min (g.current_bet - ph.current_bet) ((lookup db.accounts pid).getD 0)))⟩
        pid "call"
        { g with
          pot := g.pot +
            min (g.current_bet - ph.current_bet) ((lookup db.accounts pid).getD 0)
          player_hands := setKey g.player_hands pid
            { ph with
              current_bet := ph.current_bet +
                min (g.current_bet - ph.current_bet) ((lookup db.accounts pid).getD 0)
              total_bet := ph.total_bet +
                min (g.current_bet - ph.current_bet) ((lookup db.accounts pid).getD 0) } }
        (updateSeatBalance db.table.seats pid
          (-(min (g.current_bet - ph.current_bet) ((lookup db.accounts pid).getD 0)))) := by
  simp only [handleAction, hg, hph, hact]
  rw [if_pos ht, if_neg (by decide : ¬ ("call" = "fold")),
    if_neg (by decide : ¬ ("call" = "check")), if_pos trivial]

/-- Equation for an accepted raise: the effective target is
`raiseTarget`, the transfer is capped at the account balance, the current
bet becomes the raiser's new round bet, and the raiser becomes the last
aggressor. -/
theorem handleAction_raise_eq (db : Db) (pid : Nat) (act : String)
    (amt : Option Int) (g : Game) (ph : PlayerHand)
    (hg : db.table.game = some g) (ht : g.current_turn_player = pid)
    (hph : lookup g.player_hands pid = some ph)
    (hact : toLowerStr act = "raise")
    (hgt : ¬ raiseTarget g.current_bet amt ≤ g.current_bet) :
    handleAction db pid act amt =
      postAction ⟨db.table, incBal db.accounts pid
          (-(if (lookup db.accounts pid).getD 0 < raiseTarget g.current_bet amt - ph.current_bet
             then (lookup db.accounts pid).getD 0
             else raiseTarget g.current_bet amt - ph.current_bet))⟩ pid "raise"
        { g with
          pot := g.pot +
            (if (lookup db.accounts pid).getD 0 < raiseTarget g.current_bet amt - ph.current_bet
             then (lookup db.accounts pid).getD 0
             else raiseTarget g.current_bet amt - ph.current_bet)
          current_bet := ph.current_bet +
            (if (lookup db.accounts pid).getD 0 < raiseTarget g.current_bet amt - ph.current_bet
             then (lookup db.accounts pid).getD 0
             else raiseTarget g.current_bet amt - ph.current_bet)
          last_raiser := some pid
          player_hands := setKey g.player_hands pid
            { ph with
              current_bet := ph.current_bet +
                (if (lookup db.accounts pid).getD 0 < raiseTarget g.current_bet amt - ph.current_bet
                 then (lookup db.accounts pid).getD 0
                 else raiseTarget g.current_bet amt - ph.current_bet)
              total_bet := ph.total_bet +
                (if (lookup db.accounts pid).getD 0 < raiseTarget g.current_bet amt - ph.current_bet
                 then (lookup db.accounts pid).getD 0
                 else raiseTarget g.current_bet amt - ph.current_bet) } }
        (updateSeatBalance db.table.seats pid
          (-(if (lookup db.accounts pid).getD 0 < raiseTarget g.current_bet amt - ph.current_bet
             then (lookup db.accounts pid).getD 0
             else raiseTarget g.current_bet amt - ph.current_bet))) := by
  simp only [handleAction, hg, hph, hact]
  rw [if_pos ht, if_neg (by decide : ¬ ("raise" = "fold")),
    if_neg (by decide : ¬ ("raise" = "check")),
    if_neg (by decide : ¬ ("raise" = "call")),
    if_pos trivial, if_neg hgt]

/-- Equation for a rejected raise. -/
theorem handleAction_raise_reject (db : Db) (pid : Nat) (act : String)
    (amt : Option Int) (g : Game) (ph : PlayerHand)
    (hg : db.table.game = some g) (ht : g.current_turn_player = pid)
    (hph : lookup g.player_hands pid = some ph)
    (hact : toLowerStr act = "raise")
    (hle : raiseTarget g.current_bet amt ≤ g.current_bet) :
    handleAction db pid act amt =
      (db, some "Raise must be greater than current bet") := by
  simp only [handleAction, hg, hph, hact]
  rw [if_pos ht, if_neg (by decide : ¬ ("raise" = "fold")),
    if_neg (by decide : ¬ ("raise" = "check")),
    if_neg (by decide : ¬ ("raise" = "call")),
    if_pos trivial, if_pos hle]

/-- Equation for an unknown action kind. -/
theorem handleAction_invalid_eq (db : Db) (pid : Nat) (act : String)
    (amt : Option Int) (g : Game) (ph : PlayerHand)
    (hg : db.table.game = some g) (ht : g.current_turn_player = pid)
    (hph : lookup g.player_hands pid = some ph)
    (h1 : ¬ toLowerStr act = "fold") (h2 : ¬ toLowerStr act = "check")
    (h3 : ¬ toLowerStr act = "call") (h4 : ¬ toLowerStr act = "raise") :
    handleAction db pid act amt =
      (db, some "Invalid action. Use: fold, check, call, or raise") := by
  simp only [handleAction, hg, hph]
  rw [if_pos ht, if_neg h1, if_neg h2, if_neg h3, if_neg h4]

/-- Equation for acting out of turn. -/
theorem handleAction_not_turn (db : Db) (pid : Nat) (act : String)
    (amt : Option Int) (g : Game)
    (hg : db.table.game = some g) (ht : ¬ g.current_turn_player = pid) :
    handleAction db pid act amt = (db, some "Not your turn") := by
  simp only [handleAction, hg]
  rw [if_neg ht]

/-- Equation for a turn holder with no hand record (the JS would throw
before writing anything; unreachable from engine-produced states). -/
theorem handleAction_no_hand (db : Db) (pid : Nat) (act : String)
    (amt : Option Int) (g : Game)
    (hg : db.table.game = some g) (ht : g.current_turn_player = pid)
    (hph : lookup g.player_hands pid = none) :
    handleAction db pid act amt = (db, some "player hand missing") := by
  simp only [handleAction, hg, hph]
  rw [if_pos ht]

/-- Claim C9: `dealCards deck n` removes and returns the first `n` cards
(the dealt cards followed by the mutated deck reassemble the input), and
it is guarded when `n` exceeds the remaining cards: it returns exactly
`min n (deck.length)` cards — all the cards actually remaining — and is a
total function, never failing or producing undefined entries. -/
theorem dealCards_first_n_guarded (deck : List Card) (n : Nat) :
    (dealCards deck n).1 ++ (dealCards deck n).2 = deck ∧
    (dealCards deck n).1 = deck.take n ∧
    (dealCards deck n).2 = deck.drop n ∧
    (dealCards deck n).1.length = min n deck.length ∧
    (dealCards deck n).2.length = deck.length - n := by
  refine ⟨List.take_append_drop n deck, rfl, rfl, ?_, ?_⟩
  · simp [dealCards]
  · simp [dealCards]

/-- Claim C7: a hand holding ranks A, 2, 3, 4, 5 in any suits that do not
form a flush evaluates to category Straight (ordinal 5) with the 5-high
wheel 5, 4, 3, 2, A as the ranked cards — the ace is treated as value 1
and the straight is never missed. -/
theorem wheel_evaluates_as_five_high_straight (s1 s2 s3 s4 s5 : Suit)
    (hnoflush : getFlush [card .rA s1, card .r2 s2, card .r3 s3,
      card .r4 s4, card .r5 s5] = none) :
    evaluateHand [card .rA s1, card .r2 s2]
        [card .r3 s3, card .r4 s4, card .r5 s5] =
      ⟨5, "Straight",
       [card .r5 s5, card .r4 s4, card .r3 s3, card .r2 s2, card .rA s1], []⟩ := by
  revert hnoflush
  revert s1 s2 s3 s4 s5
  decide

/-- Witness for C7 at the spec's own example A♣ 2♦ 3♥ 4♠ 5♣. -/
theorem wheel_evaluates_as_five_high_straight_witness :
    getFlush [card .rA .clubs, card .r2 .diamonds, card .r3 .hearts,
      card .r4 .spades, card .r5 .clubs] = none ∧
    evaluateHand [card .rA .clubs, card .r2 .diamonds]
        [card .r3 .hearts, card .r4 .spades, card .r5 .clubs] =
      ⟨5, "Straight",
       [card .r5 .clubs, card .r4 .spades, card .r3 .hearts,
        card .r2 .diamonds, card .rA .clubs], []⟩ :=
  ⟨by decide, wheel_evaluates_as_five_high_straight .clubs .diamonds .hearts
    .spades .clubs (by decide)⟩

/-- Claim C6: whenever the action endpoint rejects a request — an illegal
check, a raise to a total not above the current bet, an unknown action
kind, or any other rejection — the persisted table and account state is
returned completely unchanged: actions are all-or-nothing. -/
theorem rejected_action_leaves_state_unchanged (db : Db) (pid : Nat)
    (act : String) (amt : Option Int)
    (hrej : (handleAction db pid act amt).2 ≠ none) :
    (handleAction db pid act amt).1 = db := by
  revert hrej
  simp only [handleAction]
  split
  · exact fun _ => rfl
  · split
    · split
      · exact fun _ => rfl
      · split
        · exact fun h => absurd (postAction_snd _ _ _ _ _) h
        · split
          · split
            · exact fun _ => rfl
            · exact fun h => absurd (postAction_snd _ _ _ _ _) h
          · split
            · exact fun h => absurd (postAction_snd _ _ _ _ _) h
            · split
              · split
                · exact fun _ => rfl
                · exact fun h => absurd (postAction_snd _ _ _ _ _) h
              · exact fun _ => rfl
    · exact fun _ => rfl

/-- Witness for C6: a concrete illegal check (facing a bet of 20) is
rejected and leaves the state untouched. -/
theorem rejected_action_leaves_state_unchanged_witness :
    (handleAction dbShortCall 1 "check" none).2 ≠ none ∧
    (handleAction dbShortCall 1 "check" none).1 = dbShortCall :=
  ⟨by decide,
   rejected_action_leaves_state_unchanged dbShortCall 1 "check" none (by decide)⟩

/-- Claim C4 counterexample: in `dbShortRaise` player 1 (balance 1, round
bet 0) raises to 5; the raise is accepted, the transfer is capped at the
balance, and the table's current bet is set to 1 — yet the non-folded big
blind still has a current-round bet of 2, so after this accepted action
the current bet is not the maximum current-round bet among non-folded
players. -/
theorem short_raise_breaks_current_bet_invariant :
    (handleAction dbShortRaise 1 "raise" (some 5)).2 = none ∧
    ((handleAction dbShortRaise 1 "raise" (some 5)).1.table.game.map
      (fun g => decide (currentBetInvariant g))) = some false ∧
    ((handleAction dbShortRaise 1 "raise" (some 5)).1.table.game.map
      (·.current_bet)) = some 1 ∧
    ((handleAction dbShortRaise 1 "raise" (some 5)).1.table.game.map
      (fun g => maxNonFoldedBet g.player_hands)) = some 2 := by
  decide

/-- Claim C2 counterexample: `dbFlopStart` is the start of a flop street
(three non-folded players, all round bets 0, current bet 0, no last
aggressor — exactly the state `advancePhase` creates); the very first
action of the street, a single check by the player to act, already closes
the betting round: the phase advances to `turn` and a fourth community
card is dealt, although the other two non-folded players never acted in
this street. -/
theorem first_check_closes_unacted_round :
    gFlopStart.last_raiser = none ∧
    gFlopStart.current_bet = 0 ∧
    (nonFoldedIds gFlopStart.player_hands).length = 3 ∧
    (handleAction dbFlopStart 2 "check" none).2 = none ∧
    ((handleAction dbFlopStart 2 "check" none).1.table.game.map (·.phase)) =
      some .turn ∧
    ((handleAction dbFlopStart 2 "check" none).1.table.game.map
      (·.community_cards.length)) = some 4 := by
  decide

/-- Claim C5 counterexample: in the heads-up hand `dbHeadsUp`, player 1
leaves the table; the implicit fold leaves exactly one non-folded player
(player 2), yet the hand does not end: the phase is still `pre_flop`, the
table status is still `"playing"`, and player 2's balance is unchanged —
the pot was not credited. -/
theorem leave_fold_does_not_end_hand :
    ((leaveTable dbHeadsUp 1).table.game.map
      (fun g => nonFoldedIds g.player_hands)) = some [2] ∧
    ((leaveTable dbHeadsUp 1).table.game.map (·.phase)) = some .pre_flop ∧
    (leaveTable dbHeadsUp 1).table.status = "playing" ∧
    lookup (leaveTable dbHeadsUp 1).accounts 2 = some 98 ∧
    ((leaveTable dbHeadsUp 1).table.game.map (·.pot)) = some 3 := by
  decide

/-- Claim C8 counterexample: a five-card high-card evaluation returns only
the single top card in the hand-cards list (with the other four as
kickers), not all 5 cards of the best hand. -/
theorem high_card_hand_cards_not_all_five :
    (evaluateHand [card .rK .spades, card .r9 .diamonds]
      [card .r7 .clubs, card .r5 .hearts, card .r2 .spades]).ranking = 1 ∧
    (evaluateHand [card .rK .spades, card .r9 .diamonds]
      [card .r7 .clubs, card .r5 .hearts, card .r2 .spades]).cards =
      [card .rK .spades] ∧
    (evaluateHand [card .rK .spades, card .r9 .diamonds]
      [card .r7 .clubs, card .r5 .hearts, card .r2 .spades]).kickers.length = 4 := by
  decide

/-- Claim C3: a call by the player in turn with table current bet `C`,
round bet `B < C` and account balance `S` transfers exactly
`min (C - B) S` from the player's balance into the pot — supporting a
call all-in for less.  (The hand of the caller and one other player must
still be live, and the street must be before the river, so that the pot
is not immediately paid back out by a showdown in the same request.) -/
theorem call_transfers_min_deficit_balance (db : Db) (pid : Nat)
    (amt : Option Int) (g : Game) (ph : PlayerHand) (S : Int)
    (hg : db.table.game = some g) (ht : g.current_turn_player = pid)
    (hph : lookup g.player_hands pid = some ph)
    (hS : lookup db.accounts pid = some S)
    (hnd : (g.player_hands.map Prod.fst).Nodup)
    (h2 : 2 ≤ (nonFoldedIds g.player_hands).length)
    (hphase : g.phase = Phase.pre_flop ∨ g.phase = Phase.flop ∨ g.phase = Phase.turn)
    (hCB : ph.current_bet < g.current_bet) :
    (handleAction db pid "call" amt).2 = none ∧
    lookup (handleAction db pid "call" amt).1.accounts pid =
      some (S - min (g.current_bet - ph.current_bet) S) ∧
    ∃ g', (handleAction db pid "call" amt).1.table.game = some g' ∧
      g'.pot = g.pot + min (g.current_bet - ph.current_bet) S := by
  have heq := handleAction_call_eq db pid "call" amt g ph hg ht hph (by decide)
  rw [hS] at heq
  simp only [Option.getD_some] at heq
  rw [heq]
  have hids : nonFoldedIds (setKey g.player_hands pid
      { ph with
        current_bet := ph.current_bet + min (g.current_bet - ph.current_bet) S
        total_bet := ph.total_bet + min (g.current_bet - ph.current_bet) S }) =
      nonFoldedIds g.player_hands := by
    refine nonFoldedIds_setKey_congr _ _ _ (fun e he hk => ?_)
    rw [lookup_unique g.player_hands pid ph hnd hph e he hk]
  refine ⟨postAction_snd _ _ _ _ _, ?_, ?_⟩
  · rw [postAction_accounts]
    · rw [lookup_incBal_self, hS]
      simp only [Option.map_some']
      congr 1
    · intro hlen
      rw [show nonFoldedIds ({ g with
          pot := g.pot + min (g.current_bet - ph.current_bet) S
          player_hands := setKey g.player_hands pid
            { ph with
              current_bet := ph.current_bet + min (g.current_bet - ph.current_bet) S
              total_bet := ph.total_bet + min (g.current_bet - ph.current_bet) S } } :
          Game).player_hands = nonFoldedIds g.player_hands from hids] at hlen
      omega
    · exact hphase
  · obtain ⟨g', h1, hpot, _⟩ := postAction_pot_totals _ _ _ _ _
    exact ⟨g', h1, hpot⟩

/-- Witness for C3 at the spec's example: balance 5 facing a call of 20
transfers exactly 5 (all-in), not 20; the pot grows by 5. -/
theorem call_transfers_min_deficit_balance_witness :
    (handleAction dbShortCall 1 "call" none).2 = none ∧
    lookup (handleAction dbShortCall 1 "call" none).1.accounts 1 = some 0 ∧
    ∃ g', (handleAction dbShortCall 1 "call" none).1.table.game = some g' ∧
      g'.pot = 29 := by
  have h := call_transfers_min_deficit_balance dbShortCall 1 none gShortCall
    ⟨[], false, 0, 2⟩ 5 (by decide) (by decide) (by decide) (by decide)
    (by decide) (by decide) (Or.inr (Or.inl (by decide))) (by decide)
  refine ⟨h.1, ?_, ?_⟩
  · have h2 := h.2.1
    norm_num at h2 ⊢
    exact h2
  · obtain ⟨g', h1, hpot⟩ := h.2.2
    refine ⟨g', h1, ?_⟩
    rw [hpot]
    decide

/-- Claim C10: when a raise request's amount is missing or parses to 0,
the engine does not reject the malformed amount: it silently substitutes
a raise target of exactly twice the table's current bet, so the raise is
accepted whenever the current bet is positive (the doubled target then
exceeds it) and rejected — with the state unchanged — exactly when the
current bet is zero.  When accepted, the transfer toward the doubled
target is `min (2C - B) S`. -/
theorem missing_raise_amount_defaults_to_double (db : Db) (pid : Nat)
    (amt : Option Int) (g : Game) (ph : PlayerHand) (S : Int)
    (hg : db.table.game = some g) (ht : g.current_turn_player = pid)
    (hph : lookup g.player_hands pid = some ph)
    (hS : lookup db.accounts pid = some S)
    (hamt : amt = none ∨ amt = some 0)
    (hC : 0 ≤ g.current_bet) :
    ((handleAction db pid "raise" amt).2 = none ↔ 0 < g.current_bet) ∧
    (g.current_bet = 0 → handleAction db pid "raise" amt =
      (db, some "Raise must be greater than current bet")) ∧
    (0 < g.current_bet →
      ∃ g', (handleAction db pid "raise" amt).1.table.game = some g' ∧
        g'.pot = g.pot +
          (if S < g.current_bet * 2 - ph.current_bet then S
           else g.current_bet * 2 - ph.current_bet)) := by
  have htarget : raiseTarget g.current_bet amt = g.current_bet * 2 := by
    rcases hamt with h | h <;> simp [raiseTarget, h]
  by_cases hzero : g.current_bet = 0
  · have hle : raiseTarget g.current_bet amt ≤ g.current_bet := by
      rw [htarget, hzero]
      decide
    rw [handleAction_raise_reject db pid "raise" amt g ph hg ht hph (by decide) hle]
    refine ⟨?_, fun _ => rfl, fun hpos => absurd hzero (by omega)⟩
    simp [hzero]
  · have hpos : 0 < g.current_bet := lt_of_le_of_ne hC (Ne.symm hzero)
    have hgt : ¬ raiseTarget g.current_bet amt ≤ g.current_bet := by
      rw [htarget]
      omega
    have heq := handleAction_raise_eq db pid "raise" amt g ph hg ht hph (by decide) hgt
    rw [htarget, hS] at heq
    simp only [Option.getD_some] at heq
    rw [heq]
    refine ⟨?_, fun h0 => absurd h0 hzero, fun _ => ?_⟩
    · simp [postAction_snd, hpos]
    · obtain ⟨g', h1, hpot, _⟩ := postAction_pot_totals _ _ _ _ _
      exact ⟨g', h1, hpot⟩

/-- Witness for C10: in `dbFlopStart` the current bet is 0, so a raise
with no amount is rejected; in `dbShortRaise` a raise with amount 0 is
accepted with target 4 = 2·2 and the pot grows by `min (4 - 0) 1 = 1`
(balance-capped). -/
theorem missing_raise_amount_defaults_to_double_witness :
    (¬ (handleAction dbFlopStart 2 "raise" none).2 = none) ∧
    (handleAction dbShortRaise 1 "raise" (some 0)).2 = none ∧
    ∃ g', (handleAction dbShortRaise 1 "raise" (some 0)).1.table.game = some g' ∧
      g'.pot = 4 := by
  have hz := missing_raise_amount_defaults_to_double dbFlopStart 2 none gFlopStart
    ⟨[], false, 0, 2⟩ 8 (by decide) (by decide) (by decide) (by decide)
    (Or.inl rfl) (by decide)
  have hp := missing_raise_amount_defaults_to_double dbShortRaise 1 (some 0) gShortRaise
    ⟨[], false, 0, 0⟩ 1 (by decide) (by decide) (by decide) (by decide)
    (Or.inr rfl) (by decide)
  refine ⟨?_, ?_, ?_⟩
  · intro h
    have := hz.1.mp h
    exact absurd this (by decide)
  · exact hp.1.mpr (by decide)
  · obtain ⟨g', h1, hpot⟩ := hp.2.2 (by decide)
    refine ⟨g', h1, ?_⟩
    rw [hpot]
    decide

/-- Claim C2, amended: in a betting street with no aggression
(`last_raiser = null`), an accepted check from a state in which every
non-folded player's current-round bet already equals the table's current
bet closes the betting round immediately — regardless of how many
players have acted in the street.  With three non-folded players and no
bet this means the first check of the street already closes it (see the
counterexample); the round never waits for every player to act. -/
theorem matched_check_closes_round_without_full_rotation (db : Db)
    (pid : Nat) (g : Game) (ph : PlayerHand)
    (hg : db.table.game = some g) (ht : g.current_turn_player = pid)
    (hph : lookup g.player_hands pid = some ph)
    (hnr : g.last_raiser = none)
    (hchk : ¬ 0 < g.current_bet - ph.current_bet)
    (hmatched : ∀ id ∈ nonFoldedIds g.player_hands, ∃ h',
      lookup g.player_hands id = some h' ∧
      (h'.current_bet = g.current_bet ∨ h'.folded = true))
    (h2 : ¬ (nonFoldedIds g.player_hands).length = 1)
    (hphase : g.phase = Phase.flop) :
    (handleAction db pid "check" none).2 = none ∧
    ∃ g', (handleAction db pid "check" none).1.table.game = some g' ∧
      g'.phase = Phase.turn ∧ g'.current_bet = 0 := by
  rw [handleAction_check_eq db pid "check" none g ph hg ht hph (by decide) hchk]
  refine ⟨postAction_snd _ _ _ _ _, ?_⟩
  simp only [postAction]
  rw [if_neg h2]
  split
  · obtain ⟨g', h1, _, _, _, _, hcb, _, hph'⟩ :=
      advancePhase_mk_street _ _ _ _ g (Or.inr (Or.inl hphase))
    refine ⟨g', h1, ?_, hcb⟩
    rw [hph', hphase]
  · rename_i hcond
    exfalso
    apply hcond
    simp only [Bool.and_eq_true, Bool.or_eq_true, decide_eq_true_eq]
    refine ⟨?_, Or.inr trivial⟩
    rw [List.all_eq_true]
    intro id hid
    obtain ⟨h', hl, hc⟩ := hmatched id hid
    rw [hl]
    rcases hc with h | h
    · simp [h]
    · simp [h]

/-- Witness for C2's amended statement on the concrete flop-start state:
player 2's lone check closes the round. -/
theorem matched_check_closes_round_without_full_rotation_witness :
    (handleAction dbFlopStart 2 "check" none).2 = none ∧
    ∃ g', (handleAction dbFlopStart 2 "check" none).1.table.game = some g' ∧
      g'.phase = Phase.turn ∧ g'.current_bet = 0 :=
  matched_check_closes_round_without_full_rotation dbFlopStart 2 gFlopStart
    ⟨[], false, 0, 2⟩ (by decide) (by decide) (by decide) (by decide)
    (by decide)
    (fun id hid => by
      fin_cases hid <;> exact ⟨⟨[], false, 0, 2⟩, by decide, Or.inl (by decide)⟩)
    (by decide) (by decide)

/-- Claim C5, amended: a fold action submitted through the action
endpoint that leaves exactly one non-folded player ends the hand
immediately — the entire pot is credited to that player's account, the
table closes as `hand_complete`, the phase moves to `waiting`, no winners
are computed by hand evaluation, and no further community cards are
dealt.  The implicit fold applied when a player leaves the table does
*not* trigger this (see the counterexample): `leaveTable` only marks the
hand folded and clears the seat. -/
theorem action_fold_leaving_one_ends_hand (db : Db) (pid : Nat)
    (amt : Option Int) (g : Game) (ph : PlayerHand) (w : Nat) (wBal : Int)
    (hg : db.table.game = some g) (ht : g.current_turn_player = pid)
    (hph : lookup g.player_hands pid = some ph)
    (hwBal : lookup db.accounts w = some wBal)
    (hone : nonFoldedIds (setKey g.player_hands pid { ph with folded := true }) = [w]) :
    (handleAction db pid "fold" amt).2 = none ∧
    (handleAction db pid "fold" amt).1.table.status = "hand_complete" ∧
    lookup (handleAction db pid "fold" amt).1.accounts w = some (wBal + g.pot) ∧
    ∃ g', (handleAction db pid "fold" amt).1.table.game = some g' ∧
      g'.phase = Phase.waiting ∧ g'.community_cards = g.community_cards ∧
      g'.winners = g.winners ∧ g'.pot = g.pot := by
  rw [handleAction_fold_eq db pid "fold" amt g ph hg ht hph (by decide)]
  simp only [postAction]
  rw [if_pos (by rw [hone]; rfl : (nonFoldedIds (setKey g.player_hands pid
    { ph with folded := true })).length = 1)]
  rw [resolveShowdown_mk_single _ _ _ _ _ w hone]
  refine ⟨rfl, rfl, ?_, _, rfl, rfl, rfl, rfl, rfl⟩
  rw [lookup_incBal_self, hwBal]
  rfl

/-- Witness for C5's amended statement: in the heads-up hand, player 1's
fold ends the hand at once with the pot (3) credited to player 2. -/
theorem action_fold_leaving_one_ends_hand_witness :
    (handleAction dbHeadsUp 1 "fold" none).2 = none ∧
    (handleAction dbHeadsUp 1 "fold" none).1.table.status = "hand_complete" ∧
    lookup (handleAction dbHeadsUp 1 "fold" none).1.accounts 2 = some 101 ∧
    ∃ g', (handleAction dbHeadsUp 1 "fold" none).1.table.game = some g' ∧
      g'.phase = Phase.waiting ∧ g'.community_cards = gHeadsUp.community_cards ∧
      g'.winners = gHeadsUp.winners ∧ g'.pot = gHeadsUp.pot :=
  action_fold_leaving_one_ends_hand dbHeadsUp 1 none gHeadsUp
    ⟨[card .r2 .hearts, card .r3 .clubs], false, 1, 1⟩ 2 98
    (by decide) (by decide) (by decide) (by decide) (by decide)

/-- `postAction` never changes the pot or the cumulative bets, so the
pot invariant transfers from the locally mutated game to the final one. -/
theorem potInvariant_postAction (db1 : Db) (pid : Nat) (a : String)
    (g1 : Game) (s1 : List (Option Seat)) (g' : Game)
    (hg' : (postAction db1 pid a g1 s1).1.table.game = some g')
    (hinv1 : potInvariant g1) : potInvariant g' := by
  obtain ⟨g'', h1, hpot, htot⟩ := postAction_pot_totals db1 pid a g1 s1
  rw [h1] at hg'
  obtain rfl : g'' = g' := by simpa using hg'
  unfold potInvariant at hinv1 ⊢
  rw [hpot, htot]
  exact hinv1

/-- Claim C1: the pot always equals the sum of all players' cumulative
bets (`total_bet`).  First part: the invariant holds as soon as a hand
starts (blinds posted, pot initialised to their sum), for any table whose
active seats carry distinct player ids.  Second part: every accepted
fold, check, call or raise — including any phase advancement or showdown
it triggers — preserves the invariant. -/
theorem pot_equals_sum_of_cumulative_bets :
    (∀ db shuffledDeck db',
      (((seatRefs db.table.seats).filter (fun s => decide (0 < s.balance))).map
        (·.moltbook_id)).Nodup →
      startNewHand db shuffledDeck = some db' →
      ∀ g, db'.table.game = some g → potInvariant g) ∧
    (∀ db pid act amt g, db.table.game = some g →
      (g.player_hands.map Prod.fst).Nodup → potInvariant g →
      (handleAction db pid act amt).2 = none →
      ∀ g', (handleAction db pid act amt).1.table.game = some g' → potInvariant g') := by
  constructor
  · intro db shuffledDeck db' hnd hrun g hg
    simp only [startNewHand] at hrun
    by_cases hlen : ((seatRefs db.table.seats).filter
        (fun s => decide (0 < s.balance))).length < MIN_PLAYERS_TO_START
    · rw [if_pos hlen] at hrun
      exact absurd hrun (by simp)
    · rw [if_neg hlen] at hrun
      simp only [Option.some.injEq] at hrun
      subst hrun
      simp only [Option.some.injEq] at hg
      subst hg
      have hn : 2 ≤ ((seatRefs db.table.seats).filter
          (fun s => decide (0 < s.balance))).length := by
        unfold MIN_PLAYERS_TO_START at hlen
        omega
      unfold potInvariant
      refine Eq.symm (blinds_sum _ _ _ ?_ ?_ ?_ ?_ ?_)
      · rw [deal_fold_keys]
        simpa using hnd
      · intro e he
        rcases deal_fold_zero _ [] shuffledDeck e he with h | h
        · simp at h
        · exact h.2.2
      · rw [deal_fold_keys]
        simp only [List.map_nil, List.nil_append]
        exact List.mem_map_of_mem _ (refAt_mem _ _ (Nat.mod_lt _ (by omega)))
      · rw [deal_fold_keys]
        simp only [List.map_nil, List.nil_append]
        exact List.mem_map_of_mem _ (refAt_mem _ _ (Nat.mod_lt _ (by omega)))
      · exact refAt_id_ne _ _ _ (Nat.mod_lt _ (by omega)) (Nat.mod_lt _ (by omega))
          (fun h => mod_succ_succ_ne _ _ hn h.symm) hnd
  · intro db pid act amt g hg hnd hinv hacc g' hg'
    by_cases ht : g.current_turn_player = pid
    · cases hph : lookup g.player_hands pid with
      | none =>
        rw [handleAction_no_hand db pid act amt g hg ht hph] at hacc
        simp at hacc
      | some ph =>
        by_cases hf : toLowerStr act = "fold"
        · rw [handleAction_fold_eq db pid act amt g ph hg ht hph hf] at hg'
          refine potInvariant_postAction _ _ _ _ _ _ hg' ?_
          unfold potInvariant
          have hs := sum_map_setKey g.player_hands pid ph
            { ph with folded := true } (fun h => h.total_bet) hnd hph
          simp only at hs
          rw [hs, hinv]
          ring
        · by_cases hc : toLowerStr act = "check"
          · by_cases hgt : 0 < g.current_bet - ph.current_bet
            · rw [handleAction_check_reject db pid act amt g ph hg ht hph hc hgt] at hacc
              simp at hacc
            · rw [handleAction_check_eq db pid act amt g ph hg ht hph hc hgt] at hg'
              exact potInvariant_postAction _ _ _ _ _ _ hg' hinv
          · by_cases hca : toLowerStr act = "call"
            · rw [handleAction_call_eq db pid act amt g ph hg ht hph hca] at hg'
              refine potInvariant_postAction _ _ _ _ _ _ hg' ?_
              unfold potInvariant
              have hs := sum_map_setKey g.player_hands pid ph
                { ph with
                  current_bet := ph.current_bet +
                    min (g.current_bet - ph.current_bet) ((lookup db.accounts pid).getD 0)
                  total_bet := ph.total_bet +
                    min (g.current_bet - ph.current_bet) ((lookup db.accounts pid).getD 0) }
                (fun h => h.total_bet) hnd hph
              simp only at hs
              rw [hs, hinv]
              ring
            · by_cases hr : toLowerStr act = "raise"
              · by_cases hle : raiseTarget g.current_bet amt ≤ g.current_bet
                · rw [handleAction_raise_reject db pid act amt g ph hg ht hph hr hle] at hacc
                  simp at hacc
                · rw [handleAction_raise_eq db pid act amt g ph hg ht hph hr hle] at hg'
                  refine potInvariant_postAction _ _ _ _ _ _ hg' ?_
                  unfold potInvariant
                  have hs := sum_map_setKey g.player_hands pid ph
                    { ph with
                      current_bet := ph.current_bet +
                        (if (lookup db.accounts pid).getD 0 <
                            raiseTarget g.current_bet amt - ph.current_bet
                         then (lookup db.accounts pid).getD 0
                         else raiseTarget g.current_bet amt - ph.current_bet)
                      total_bet := ph.total_bet +
                        (if (lookup db.accounts pid).getD 0 <
                            raiseTarget g.current_bet amt - ph.current_bet
                         then (lookup db.accounts pid).getD 0
                         else raiseTarget g.current_bet amt - ph.current_bet) }
                    (fun h => h.total_bet) hnd hph
                  simp only at hs
                  rw [hs, hinv]
                  ring
              · rw [handleAction_invalid_eq db pid act amt g ph hg ht hph hf hc hca hr] at hacc
                simp at hacc
    · rw [handleAction_not_turn db pid act amt g hg ht] at hacc
      simp at hacc

theorem mem_nonFoldedBets_of (hands : List (Nat × PlayerHand))
    (q : Nat × PlayerHand) (hq : q ∈ hands) (hfold : q.2.folded = false) :
    q.2.current_bet ∈ nonFoldedBets hands := by
  unfold nonFoldedBets
  exact List.mem_filterMap.2 ⟨q, hq, by simp [hfold]⟩

theorem mem_setKey_of_ne (hands : List (Nat × PlayerHand)) (k : Nat)
    (w : PlayerHand) (q : Nat × PlayerHand) (hq : q ∈ hands)
    (hne : ¬ q.1 = k) : q ∈ setKey hands k w := by
  have h := List.mem_map_of_mem (fun e => if e.1 = k then (k, w) else e) hq
  simpa [setKey, hne] using h

/-- After resetting every current-round bet to 0, the maximum non-folded
round bet is 0. -/
theorem maxNonFoldedBet_reset (hands : List (Nat × PlayerHand)) :
    maxNonFoldedBet (hands.map (fun e => (e.1, { e.2 with current_bet := 0 }))) = 0 := by
  apply foldr_max_eq_zero
  intro x hx
  unfold nonFoldedBets at hx
  rw [List.filterMap_map] at hx
  rcases List.mem_filterMap.1 hx with ⟨a, _, hfa⟩
  simp only [Function.comp] at hfa
  by_cases hf : a.2.folded
  · simp [hf] at hfa
  · simp [hf] at hfa
    omega

/-- `advancePhase` preserves the current-bet invariant (it zeroes both
sides on a street change and touches neither on a showdown). -/
theorem currentBetInvariant_advancePhase (db : Db) (g : Game)
    (hg : db.table.game = some g) (hinv : currentBetInvariant g) :
    ∀ g', (advancePhase db).table.game = some g' → currentBetInvariant g' := by
  intro g' hg'
  cases hph : g.phase
  case waiting =>
    rw [advancePhase_nostreet db g hg (Or.inl hph), hg] at hg'
    obtain rfl : g = g' := by simpa using hg'
    exact hinv
  case showdown =>
    rw [advancePhase_nostreet db g hg (Or.inr hph), hg] at hg'
    obtain rfl : g = g' := by simpa using hg'
    exact hinv
  case pre_flop =>
    obtain ⟨g2, h1, _, _, _, _, hcb, hhands, _⟩ :=
      advancePhase_street db g hg (Or.inl hph)
    rw [h1] at hg'
    obtain rfl : g2 = g' := by simpa using hg'
    unfold currentBetInvariant
    rw [hcb, hhands, maxNonFoldedBet_reset]
  case flop =>
    obtain ⟨g2, h1, _, _, _, _, hcb, hhands, _⟩ :=
      advancePhase_street db g hg (Or.inr (Or.inl hph))
    rw [h1] at hg'
    obtain rfl : g2 = g' := by simpa using hg'
    unfold currentBetInvariant
    rw [hcb, hhands, maxNonFoldedBet_reset]
  case turn =>
    obtain ⟨g2, h1, _, _, _, _, hcb, hhands, _⟩ :=
      advancePhase_street db g hg (Or.inr (Or.inr hph))
    rw [h1] at hg'
    obtain rfl : g2 = g' := by simpa using hg'
    unfold currentBetInvariant
    rw [hcb, hhands, maxNonFoldedBet_reset]
  case river =>
    revert hg'
    simp only [advancePhase, hg, hph]
    rw [if_pos trivial]
    split
    · intro hg'
      obtain ⟨w, hw⟩ := resolveShowdown_mk_shape _ _ _ _ _
      rw [hw] at hg'
      obtain rfl := by simpa using hg'.symm
      show (0 : Int) = maxNonFoldedBet (g.player_hands.map
        (fun e => (e.1, { e.2 with current_bet := 0 })))
      exact (maxNonFoldedBet_reset _).symm
    · split
      · intro hg'
        obtain ⟨w, hw⟩ := resolveShowdown_mk_shape _ _ _ _ _
        rw [hw] at hg'
        obtain rfl := by simpa using hg'.symm
        show (0 : Int) = maxNonFoldedBet (g.player_hands.map
          (fun e => (e.1, { e.2 with current_bet := 0 })))
        exact (maxNonFoldedBet_reset _).symm
      · intro hg'
        obtain ⟨w, hw⟩ := resolveShowdown_mk_shape _ _ _ _ _
        rw [hw] at hg'
        obtain rfl := by simpa using hg'.symm
        show (0 : Int) = maxNonFoldedBet (g.player_hands.map
          (fun e => (e.1, { e.2 with current_bet := 0 })))
        exact (maxNonFoldedBet_reset _).symm

/-- The post-switch code preserves the current-bet invariant. -/
theorem currentBetInvariant_postAction (db1 : Db) (pid : Nat) (a : String)
    (g1 : Game) (s1 : List (Option Seat)) (g' : Game)
    (hg' : (postAction db1 pid a g1 s1).1.table.game = some g')
    (hinv1 : currentBetInvariant g1) : currentBetInvariant g' := by
  revert hg'
  simp only [postAction]
  split
  · intro hg'
    obtain ⟨w, hw⟩ := resolveShowdown_mk_shape _ _ _ _ { g1 with phase := Phase.showdown }
    rw [hw] at hg'
    obtain rfl := by simpa using hg'.symm
    exact hinv1
  · split
    · intro hg'
      exact currentBetInvariant_advancePhase _ g1 rfl hinv1 g' hg'
    · intro hg'
      obtain rfl := by simpa using hg'.symm
      exact hinv1

/-- An updated entry is present in the updated map. -/
theorem mem_setKey_self {α : Type} (m : List (Nat × α)) (k : Nat)
    (v w : α) (hv : lookup m k = some v) : (k, w) ∈ setKey m k w := by
  have hm := lookup_mem m k v hv
  have h := List.mem_map_of_mem (fun e => if e.1 = k then (k, w) else e) hm
  simpa [setKey] using h

/-- The maximum non-folded round bet after a single-entry update is `D`
when `D` occurs among the updated bets, every old bet is at most `D`, and
the updated entry's bet (if not folded) is at most `D`. -/
theorem maxNonFoldedBet_setKey_eq (hands : List (Nat × PlayerHand)) (k : Nat)
    (v w : PlayerHand) (D : Int)
    (hnd : (hands.map Prod.fst).Nodup) (hv : lookup hands k = some v)
    (h0 : 0 ≤ D)
    (hmem : D ∈ nonFoldedBets (setKey hands k w))
    (hall : ∀ x ∈ nonFoldedBets hands, x ≤ D)
    (hw : w.folded = false → w.current_bet ≤ D) :
    maxNonFoldedBet (setKey hands k w) = D := by
  obtain ⟨L1, L2, hOld, hNew⟩ := nonFoldedBets_setKey_decomp hands k v w hnd hv
  unfold maxNonFoldedBet
  refine foldr_max_eq _ D h0 hmem ?_
  intro x hx
  rw [hNew] at hx
  rcases List.mem_append.1 hx with h1 | h23
  · exact hall x (by rw [hOld]; exact List.mem_append_left _ h1)
  · rcases List.mem_append.1 h23 with h2 | h3
    · by_cases hwf : w.folded
      · simp [hwf] at h2
      · simp [hwf] at h2
        rw [h2]
        exact hw (by simpa using hwf)
    · exact hall x
        (by rw [hOld]; exact List.mem_append_right _ (List.mem_append_right _ h3))

/-- Special case: the updated entry stays in the hand and its new round
bet is exactly the claimed maximum `D`. -/
theorem maxNonFoldedBet_setKey_self_eq (hands : List (Nat × PlayerHand)) (k : Nat)
    (v w : PlayerHand) (D : Int)
    (hnd : (hands.map Prod.fst).Nodup) (hv : lookup hands k = some v)
    (h0 : 0 ≤ D) (hwf : w.folded = false) (hwb : w.current_bet = D)
    (hall : ∀ x ∈ nonFoldedBets hands, x ≤ D) :
    maxNonFoldedBet (setKey hands k w) = D := by
  refine maxNonFoldedBet_setKey_eq hands k v w D hnd hv h0 ?_ hall
    (fun _ => le_of_eq hwb)
  have h := mem_nonFoldedBets_of (setKey hands k w) (k, w)
    (mem_setKey_self hands k v w hv) hwf
  simpa [hwb] using h

/-- Witness for C1: the invariant holds after dealing a fresh two-player
hand (pot 3 = small + big blinds), and it is preserved by an accepted
check on the concrete flop state. -/
theorem pot_equals_sum_of_cumulative_bets_witness :
    potInvariant gFreshDealt ∧ potInvariant gFlopAfterCheck :=
  ⟨pot_equals_sum_of_cumulative_bets.1 dbFreshTable createDeck dbFreshDealt
    (by decide) (by decide) gFreshDealt (by decide),
   pot_equals_sum_of_cumulative_bets.2 dbFlopStart 2 "check" none gFlopStart
    (by decide) (by decide) (by decide) (by decide) gFlopAfterCheck (by decide)⟩

/-! ## Evaluator shape lemmas (for C8) -/

theorem mem_of_mem_dedupFirstAux [DecidableEq α] (seen l : List α) (x : α)
    (hx : x ∈ dedupFirstAux seen l) : x ∈ l := by
  induction l generalizing seen with
  | nil => simpa [dedupFirstAux] using hx
  | cons a t ih =>
    simp only [dedupFirstAux] at hx
    split at hx
    · exact List.mem_cons_of_mem _ (ih _ hx)
    · rcases List.mem_cons.1 hx with h | h
      · exact h ▸ List.mem_cons_self _ _
      · exact List.mem_cons_of_mem _ (ih _ h)

theorem not_mem_seen_of_mem_dedupFirstAux [DecidableEq α] (seen l : List α)
    (x : α) (hx : x ∈ dedupFirstAux seen l) : x ∉ seen := by
  induction l generalizing seen with
  | nil => simp [dedupFirstAux] at hx
  | cons a t ih =>
    simp only [dedupFirstAux] at hx
    split at hx
    · exact ih _ hx
    · rcases List.mem_cons.1 hx with h | h
      · intro hs
        rename_i hns
        exact hns (h ▸ hs)
      · intro hs
        exact ih _ h (List.mem_cons_of_mem _ hs)

theorem dedupFirstAux_nodup [DecidableEq α] (seen l : List α) :
    (dedupFirstAux seen l).Nodup := by
  induction l generalizing seen with
  | nil => simp [dedupFirstAux]
  | cons a t ih =>
    simp only [dedupFirstAux]
    split
    · exact ih _
    · refine List.nodup_cons.2 ⟨?_, ih _⟩
      intro hmem
      exact not_mem_seen_of_mem_dedupFirstAux _ _ _ hmem (List.mem_cons_self _ _)

theorem dedupFirst_nodup [DecidableEq α] (l : List α) : (dedupFirst l).Nodup :=
  dedupFirstAux_nodup [] l

theorem mem_of_mem_dedupFirst [DecidableEq α] (l : List α) (x : α)
    (hx : x ∈ dedupFirst l) : x ∈ l :=
  mem_of_mem_dedupFirstAux [] l x hx

/-- Every entry of `uniqueValues` is a card value of the input, except the
appended `1`, which certifies an ace. -/
theorem mem_uniqueValuesDesc (cs : List Card) (v : Nat)
    (hv : v ∈ uniqueValuesDesc cs) :
    v ∈ cs.map (·.value) ∨ (v = 1 ∧ 14 ∈ cs.map (·.value)) := by
  simp only [uniqueValuesDesc] at hv
  have hperm := List.perm_insertionSort natDescR (dedupFirst (cs.map (·.value)))
  split at hv
  · rcases List.mem_append.1 hv with h | h
    · exact Or.inl (mem_of_mem_dedupFirst _ _ (hperm.mem_iff.1 h))
    · rename_i h14
      refine Or.inr ⟨by simpa using h, ?_⟩
      exact mem_of_mem_dedupFirst _ _ (hperm.mem_iff.1 h14)
  · exact Or.inl (mem_of_mem_dedupFirst _ _ (hperm.mem_iff.1 hv))

/-- What a successful window scan certifies: the high value is `e + 4` and
all five consecutive values are present in the scanned list. -/
theorem consecutive5_spec (l : List Nat) (h : Nat)
    (hl : consecutive5 l = some h) :
    ∃ e, h = e + 4 ∧ e + 4 ∈ l ∧ e + 3 ∈ l ∧ e + 2 ∈ l ∧ e + 1 ∈ l ∧ e ∈ l := by
  induction l with
  | nil => simp [consecutive5] at hl
  | cons a t ih =>
    match t, hl with
    | b :: c :: d :: e :: rest, hl =>
      rw [consecutive5] at hl
      split at hl
      · rename_i hc
        obtain ⟨h1, h2, h3, h4⟩ := hc
        obtain rfl : a = h := by simpa using hl
        refine ⟨e, by omega, ?_, ?_, ?_, ?_, ?_⟩
        · have : a = e + 4 := by omega
          rw [← this]; exact List.mem_cons_self _ _
        · have : b = e + 3 := by omega
          rw [← this]; simp
        · have : c = e + 2 := by omega
          rw [← this]; simp
        · have : d = e + 1 := by omega
          rw [← this]; simp
        · simp
      · obtain ⟨e', he', m4, m3, m2, m1, m0⟩ := ih hl
        exact ⟨e', he', List.mem_cons_of_mem _ m4, List.mem_cons_of_mem _ m3,
          List.mem_cons_of_mem _ m2, List.mem_cons_of_mem _ m1,
          List.mem_cons_of_mem _ m0⟩
    | [], hl => simp [consecutive5] at hl
    | [b], hl => simp [consecutive5] at hl
    | [b, c], hl => simp [consecutive5] at hl
    | [b, c, d], hl => simp [consecutive5] at hl

theorem two_le_rankValue (r : Rank) : 2 ≤ rankValue r := by
  cases r <;> decide

theorem rankValue_le_fourteen (r : Rank) : rankValue r ≤ 14 := by
  cases r <;> decide

/-- The two-way rank partition of the card list. -/
theorem length_filter_rank_compl (cs : List Card) (r : Rank) :
    (cs.filter (fun c => decide (c.rank = r))).length +
      (cs.filter (fun c => decide (¬ c.rank = r))).length = cs.length := by
  induction cs with
  | nil => simp
  | cons a t ih =>
    simp only [List.filter_cons, List.length_cons]
    by_cases h : a.rank = r
    · rw [if_pos (by simp [h]), if_neg (by simp [h])]
      simp only [List.length_cons]
      omega
    · rw [if_neg (by simp [h]), if_pos (by simp [h])]
      simp only [List.length_cons]
      omega

/-- The three-way partition by two distinct ranks. -/
theorem length_filter_two_ranks (cs : List Card) (r1 r2 : Rank)
    (hne : ¬ r1 = r2) :
    (cs.filter (fun c => decide (c.rank = r1))).length +
      (cs.filter (fun c => decide (c.rank = r2))).length +
      (cs.filter (fun c => decide (¬ c.rank = r1 ∧ ¬ c.rank = r2))).length =
      cs.length := by
  induction cs with
  | nil => simp
  | cons a t ih =>
    simp only [List.filter_cons, List.length_cons]
    by_cases h1 : a.rank = r1
    · have h2 : ¬ a.rank = r2 := fun h2 => hne (h1 ▸ h2)
      rw [if_pos (by simp [h1]), if_neg (by simp [h2]), if_neg (by simp [h1])]
      simp only [List.length_cons]
      omega
    · by_cases h2 : a.rank = r2
      · rw [if_neg (by simp [h1]), if_pos (by simp [h2]), if_neg (by simp [h2])]
        simp only [List.length_cons]
        omega
      · rw [if_neg (by simp [h1]), if_neg (by simp [h2]),
          if_pos (by simp [h1, h2])]
        simp only [List.length_cons]
        omega

/-- Every entry of `countValues` pairs a rank with its exact card count. -/
theorem countValues_entry (cs : List Card) (i : Nat) (e : Rank × Nat)
    (h : (countValues cs).get? i = some e) : e.2 = countRank cs e.1 := by
  have hm : e ∈ countValues cs := List.get?_mem h
  have hm2 : e ∈ (rankList cs).map (fun r => (r, countRank cs r)) :=
    (List.perm_insertionSort cvRel _).mem_iff.1 hm
  obtain ⟨r, _, rfl⟩ := List.mem_map.1 hm2
  rfl

/-- A positive `counts[i][1]` read certifies an entry whose rank is
`counts[i][0]` and whose count is the read value. -/
theorem countRank_rankAt (cs : List Card) (i : Nat)
    (h : 0 < cvCount (countValues cs) i) :
    countRank cs (rankAt (countValues cs) i) = cvCount (countValues cs) i := by
  cases hg : (countValues cs).get? i with
  | none =>
    rw [List.get?_eq_getElem?] at hg
    simp [cvCount, hg] at h
  | some e =>
    have he := countValues_entry cs i e hg
    rw [List.get?_eq_getElem?] at hg
    simp [cvCount, rankAt, hg, he]

/-- The ranks of the `countValues` entries are pairwise distinct. -/
theorem countValues_fst_nodup (cs : List Card) :
    ((countValues cs).map Prod.fst).Nodup := by
  have hperm : ((countValues cs).map Prod.fst).Perm
      (((rankList cs).map (fun r => (r, countRank cs r))).map Prod.fst) :=
    (List.perm_insertionSort cvRel _).map Prod.fst
  rw [hperm.nodup_iff]
  simp only [List.map_map]
  have : (Prod.fst ∘ fun r => (r, countRank cs r)) = id := by
    funext r
    rfl
  rw [this, List.map_id]
  exact dedupFirst_nodup _

/-- Distinct positions of `countValues` hold distinct ranks. -/
theorem rankAt_ne_of_get (cs : List Card) (i j : Nat) (ei ej : Rank × Nat)
    (hi : (countValues cs).get? i = some ei)
    (hj : (countValues cs).get? j = some ej)
    (hij : ¬ i = j) : ¬ ei.1 = ej.1 := by
  obtain ⟨hi', hgi⟩ := List.get?_eq_some.1 hi
  obtain ⟨hj', hgj⟩ := List.get?_eq_some.1 hj
  intro heq
  apply hij
  have hnd := countValues_fst_nodup cs
  have hi2 : i < ((countValues cs).map Prod.fst).length := by
    simpa using hi'
  have hj2 : j < ((countValues cs).map Prod.fst).length := by
    simpa using hj'
  have hvi : ((countValues cs).map Prod.fst)[i] = ei.1 := by
    rw [List.getElem_map]
    simp only [← hgi]
    rfl
  have hvj : ((countValues cs).map Prod.fst)[j] = ej.1 := by
    rw [List.getElem_map]
    simp only [← hgj]
    rfl
  exact (List.Nodup.getElem_inj_iff hnd).1 (by rw [hvi, hvj, heq])

/-- Each step of `getStraight`'s collection loop appends exactly one card
when every target value is present among the cards, the already-collected
cards miss all remaining targets, and the targets are pairwise distinct. -/
theorem collect_fold_length (cs : List Card) (ts : List Int) :
    ∀ acc : List Card,
      (∀ v ∈ ts, ∃ c ∈ cs, (c.value : Int) = actualValue v) →
      (∀ v ∈ ts, ∀ c ∈ acc, ¬ (c.value : Int) = actualValue v) →
      ts.Pairwise (fun v w => ¬ actualValue v = actualValue w) →
      (ts.foldl (fun acc v =>
        match cs.find? (fun c =>
            decide ((c.value : Int) = actualValue v) && decide (c ∉ acc)) with
        | some c => acc ++ [c]
        | none => acc) acc).length = acc.length + ts.length := by
  induction ts with
  | nil =>
    intro acc _ _ _
    simp
  | cons v ts' ih =>
    intro acc hpres hdisj hdist
    obtain ⟨hhead, htail⟩ := List.pairwise_cons.1 hdist
    obtain ⟨c0, hc0m, hc0v⟩ := hpres v (List.mem_cons_self _ _)
    have hfind : (cs.find? (fun c =>
        decide ((c.value : Int) = actualValue v) && decide (c ∉ acc))).isSome := by
      rw [List.find?_isSome]
      refine ⟨c0, hc0m, ?_⟩
      simp only [Bool.and_eq_true, decide_eq_true_eq]
      exact ⟨hc0v, fun hmem => hdisj v (List.mem_cons_self _ _) c0 hmem hc0v⟩
    obtain ⟨c1, hc1⟩ := Option.isSome_iff_exists.1 hfind
    have hp := List.find?_some hc1
    simp only [Bool.and_eq_true, decide_eq_true_eq] at hp
    have hstep : (match cs.find? (fun c =>
            decide ((c.value : Int) = actualValue v) && decide (c ∉ acc)) with
        | some c => acc ++ [c]
        | none => acc) = acc ++ [c1] := by
      rw [hc1]
    rw [List.foldl_cons, hstep]
    rw [ih (acc ++ [c1])
      (fun w hw => hpres w (List.mem_cons_of_mem _ hw))
      (by
        intro w hw c hc
        rcases List.mem_append.1 hc with h | h
        · exact hdisj w (List.mem_cons_of_mem _ hw) c h
        · have hcc : c = c1 := by simpa using h
          subst hcc
          intro hEq
          exact hhead w hw (hp.1.symm.trans hEq))
      htail]
    simp only [List.length_append, List.length_cons, List.length_nil]
    omega

/-- A value seen in `uniqueValues` is realised by a card: directly when it
is at least 2, and by an ace when the appended `1` is read (its actual
value is 14). -/
theorem exists_card_of_mem_uniqueValues (cs : List Card) (n : Nat)
    (hn : n ∈ uniqueValuesDesc cs) (h1 : 1 ≤ n)
    (hval : ∀ c ∈ cs, 2 ≤ c.value) :
    ∃ c ∈ cs, (c.value : Int) = actualValue (n : Int) := by
  rcases mem_uniqueValuesDesc cs n hn with h | ⟨rfl, h14⟩
  · obtain ⟨c, hc, hcv⟩ := List.mem_map.1 h
    have hcv' : c.value = n := hcv
    refine ⟨c, hc, ?_⟩
    have h2 : 2 ≤ c.value := hval c hc
    simp only [actualValue]
    rw [if_neg (by omega : ¬ (n : Int) = 1)]
    exact_mod_cast hcv'
  · obtain ⟨c, hc, hcv⟩ := List.mem_map.1 h14
    refine ⟨c, hc, ?_⟩
    simp only [actualValue]
    rw [if_pos (by norm_num : ((1 : Nat) : Int) = 1)]
    exact_mod_cast hcv

/-- The five loop targets, expanded. -/
theorem straightTargets_eq (n : Nat) :
    straightTargets n =
      [(n : Int), (n : Int) - 1, (n : Int) - 2, (n : Int) - 3, (n : Int) - 4] := by
  simp [straightTargets, List.range_succ]

/-- `actualValue` is injective on values that are at least 1 and at most 4
apart (the ace remap to 14 cannot collide inside such a window). -/
theorem actualValue_ne (x y : Int) (hx : 1 ≤ x) (hy : 1 ≤ y) (hxy : ¬ x = y)
    (h1 : x - y ≤ 4) (h2 : y - x ≤ 4) : ¬ actualValue x = actualValue y := by
  simp only [actualValue]
  split_ifs <;> omega

/-- When the window scan finds a straight, the collection loop collects
exactly five cards. -/
theorem collectStraight_length (cs : List Card) (h : Nat)
    (hcons : consecutive5 (uniqueValuesDesc cs) = some h)
    (hval : ∀ c ∈ cs, 2 ≤ c.value) :
    (collectStraight cs h).length = 5 := by
  obtain ⟨e, rfl, m4, m3, m2, m1, m0⟩ := consecutive5_spec _ _ hcons
  have he1 : 1 ≤ e := by
    rcases mem_uniqueValuesDesc cs e m0 with hm | ⟨rfl, _⟩
    · obtain ⟨c, hc, hcv⟩ := List.mem_map.1 hm
      have hcv' : c.value = e := hcv
      have := hval c hc
      omega
    · omega
  have key : ∀ (z : Int) (n : Nat), n ∈ uniqueValuesDesc cs → 1 ≤ n →
      z = (n : Int) → ∃ c ∈ cs, (c.value : Int) = actualValue z := by
    intro z n hmem h1 hz
    subst hz
    exact exists_card_of_mem_uniqueValues cs n hmem h1 hval
  have hpres : ∀ v ∈ straightTargets (e + 4),
      ∃ c ∈ cs, (c.value : Int) = actualValue v := by
    intro v hv
    rw [straightTargets_eq] at hv
    fin_cases hv
    · refine key _ (e + 4) m4 ?_ ?_ <;> omega
    · refine key _ (e + 3) m3 ?_ ?_ <;> omega
    · refine key _ (e + 2) m2 ?_ ?_ <;> omega
    · refine key _ (e + 1) m1 ?_ ?_ <;> omega
    · refine key _ e m0 ?_ ?_ <;> omega
  have hdisj : ∀ v ∈ straightTargets (e + 4), ∀ c ∈ ([] : List Card),
      ¬ (c.value : Int) = actualValue v := by
    intro v _ c hc
    simp at hc
  have hdist : (straightTargets (e + 4)).Pairwise
      (fun v w => ¬ actualValue v = actualValue w) := by
    rw [straightTargets_eq]
    refine List.Pairwise.cons ?_ (List.Pairwise.cons ?_ (List.Pairwise.cons ?_
      (List.Pairwise.cons ?_ (List.Pairwise.cons ?_ List.Pairwise.nil))))
    all_goals intro a ha
    all_goals fin_cases ha
    all_goals refine actualValue_ne _ _ ?_ ?_ ?_ ?_ ?_
    all_goals omega
  have hlen := collect_fold_length cs (straightTargets (e + 4)) [] hpres hdisj hdist
  unfold collectStraight
  rw [hlen, straightTargets_eq]
  simp

/-- `getStraight` always returns five cards when it returns at all. -/
theorem getStraight_length (cs : List Card) (l : List Card)
    (h : getStraight cs = some l) (hval : ∀ c ∈ cs, 2 ≤ c.value) :
    l.length = 5 := by
  unfold getStraight at h
  cases hc : consecutive5 (uniqueValuesDesc cs) with
  | none =>
    rw [hc] at h
    simp at h
  | some high =>
    rw [hc] at h
    obtain rfl : collectStraight cs high = l := by simpa using h
    exact collectStraight_length cs high hc hval

/-- `getFlush` always returns five cards when it returns at all. -/
theorem getFlush_length (cs : List Card) (l : List Card)
    (h : getFlush cs = some l) : l.length = 5 := by
  obtain ⟨s, _, hs⟩ := List.exists_of_findSome?_eq_some h
  split at hs
  · rename_i hcond
    obtain rfl : (sortCardsDesc (cs.filter (fun c => decide (c.suit = s)))).take 5 = l := by
      simpa using hs
    rw [List.length_take, sortCardsDesc,
      (List.perm_insertionSort cardDescR _).length_eq]
    simp only [suitCount] at hcond
    exact min_eq_left hcond
  · simp at hs

/-- `getStraightFlush` always returns five cards when it returns at all. -/
theorem getStraightFlush_length (cs : List Card) (l : List Card)
    (h : getStraightFlush cs = some l) (hval : ∀ c ∈ cs, 2 ≤ c.value) :
    l.length = 5 := by
  obtain ⟨s, _, hs⟩ := List.exists_of_findSome?_eq_some h
  split at hs
  · refine getStraight_length _ _ hs ?_
    intro c hc
    exact hval c (List.mem_filter.1 hc).1
  · simp at hs

/-- Distinct positions of `countValues` with live counts hold distinct
ranks. -/
theorem rankAt_ne (cs : List Card) (i j : Nat)
    (hi : 0 < cvCount (countValues cs) i) (hj : 0 < cvCount (countValues cs) j)
    (hij : ¬ i = j) :
    ¬ rankAt (countValues cs) i = rankAt (countValues cs) j := by
  cases hgi : (countValues cs).get? i with
  | none =>
    rw [List.get?_eq_getElem?] at hgi
    simp [cvCount, hgi] at hi
  | some ei =>
    cases hgj : (countValues cs).get? j with
    | none =>
      rw [List.get?_eq_getElem?] at hgj
      simp [cvCount, hgj] at hj
    | some ej =>
      have hne := rankAt_ne_of_get cs i j ei ej hgi hgj hij
      rw [List.get?_eq_getElem?] at hgi hgj
      simpa [rankAt, hgi, hgj] using hne

/-- Any prefix of the descending sort is descending. -/
theorem sorted_take_sortCardsDesc (cs : List Card) (n : Nat) :
    List.Sorted cardDescR ((sortCardsDesc cs).take n) :=
  List.Pairwise.sublist (List.take_sublist _ _)
    (List.sorted_insertionSort cardDescR cs)

/-- Claim C8 (amended): over at least five cards the evaluation always
returns a full five-card decomposition — the hand cards and the kickers
together hold exactly five cards, the kickers are ordered by descending
value, and the category ordinal is between 1 and 10 — but the hand-cards
list holds all five cards only for the categories that use all five (for
high card it keeps a single card, for one pair two, and so on, the rest
going to the kickers). -/
theorem evaluateHand_returns_five_card_decomposition
    (holeCards communityCards : List Card)
    (hwf : ∀ c ∈ holeCards ++ communityCards, wellFormedCard c)
    (hn : 5 ≤ (holeCards ++ communityCards).length) :
    (evaluateHand holeCards communityCards).cards.length +
      (evaluateHand holeCards communityCards).kickers.length = 5
    ∧ List.Sorted cardDescR (evaluateHand holeCards communityCards).kickers
    ∧ 1 ≤ (evaluateHand holeCards communityCards).ranking
    ∧ (evaluateHand holeCards communityCards).ranking ≤ 10 := by
  have hv2 : ∀ c ∈ holeCards ++ communityCards, 2 ≤ c.value := by
    intro c hc
    have hw := hwf c hc
    rw [hw]
    exact two_le_rankValue _
  rcases hres : evaluateHand holeCards communityCards with ⟨rk, nm, cds, ks⟩
  show cds.length + ks.length = 5 ∧ List.Sorted cardDescR ks ∧ 1 ≤ rk ∧ rk ≤ 10
  simp only [evaluateHand] at hres
  rw [if_neg (by omega : ¬ (holeCards ++ communityCards).length < 5)] at hres
  split at hres
  · -- straight flush found
    rename_i sf hsf
    have hlsf : sf.length = 5 := getStraightFlush_length _ _ hsf hv2
    split at hres
    all_goals injection hres with h1 h2 h3 h4
    all_goals subst h1 h3 h4
    all_goals exact ⟨by simp [hlsf], List.sorted_nil, by decide, by decide⟩
  · -- no straight flush
    rename_i hnsf
    split at hres
    · -- four of a kind
      rename_i h4k
      injection hres with h1 h2 h3 h4
      subst h1 h3 h4
      have hcr : (((holeCards ++ communityCards).filter
          (fun c => decide (c.rank = rankAt (countValues (holeCards ++ communityCards)) 0))).length) = 4 := by
        have h0 : 0 < cvCount (countValues (holeCards ++ communityCards)) 0 := by omega
        have hq := countRank_rankAt (holeCards ++ communityCards) 0 h0
        simp only [countRank] at hq
        omega
      have hpart := length_filter_rank_compl (holeCards ++ communityCards)
        (rankAt (countValues (holeCards ++ communityCards)) 0)
      refine ⟨?_, sorted_take_sortCardsDesc _ _, by decide, by decide⟩
      rw [List.length_take, sortCardsDesc,
        (List.perm_insertionSort cardDescR _).length_eq]
      omega
    · rename_i hn4k
      split at hres
      · -- full house
        rename_i hfh
        obtain ⟨h3c, h2c⟩ := hfh
        injection hres with h1 h2 h3 h4
        subst h1 h3 h4
        have hcr0 : (((holeCards ++ communityCards).filter
            (fun c => decide (c.rank = rankAt (countValues (holeCards ++ communityCards)) 0))).length) = 3 := by
          have h0 : 0 < cvCount (countValues (holeCards ++ communityCards)) 0 := by omega
          have hq := countRank_rankAt (holeCards ++ communityCards) 0 h0
          simp only [countRank] at hq
          omega
        have hcr1 : 2 ≤ (((holeCards ++ communityCards).filter
            (fun c => decide (c.rank = rankAt (countValues (holeCards ++ communityCards)) 1))).length) := by
          have h0 : 0 < cvCount (countValues (holeCards ++ communityCards)) 1 := by omega
          have hq := countRank_rankAt (holeCards ++ communityCards) 1 h0
          simp only [countRank] at hq
          omega
        refine ⟨?_, List.sorted_nil, by decide, by decide⟩
        rw [List.length_append, List.length_take, List.length_take]
        simp only [List.length_nil]
        omega
      · rename_i hnfh
        split at hres
        · -- flush
          rename_i fl hfl
          injection hres with h1 h2 h3 h4
          subst h1 h3 h4
          exact ⟨by simp [getFlush_length _ _ hfl], List.sorted_nil,
            by decide, by decide⟩
        · rename_i hnfl
          split at hres
          · -- straight
            rename_i st hst
            injection hres with h1 h2 h3 h4
            subst h1 h3 h4
            exact ⟨by simp [getStraight_length _ _ hst hv2], List.sorted_nil,
              by decide, by decide⟩
          · rename_i hnst
            split at hres
            · -- three of a kind
              rename_i h3k
              injection hres with h1 h2 h3 h4
              subst h1 h3 h4
              have hcr : (((holeCards ++ communityCards).filter
                  (fun c => decide (c.rank = rankAt (countValues (holeCards ++ communityCards)) 0))).length) = 3 := by
                have h0 : 0 < cvCount (countValues (holeCards ++ communityCards)) 0 := by omega
                have hq := countRank_rankAt (holeCards ++ communityCards) 0 h0
                simp only [countRank] at hq
                omega
              have hpart := length_filter_rank_compl (holeCards ++ communityCards)
                (rankAt (countValues (holeCards ++ communityCards)) 0)
              refine ⟨?_, sorted_take_sortCardsDesc _ _, by decide, by decide⟩
              rw [List.length_take, sortCardsDesc,
                (List.perm_insertionSort cardDescR _).length_eq]
              omega
            · rename_i hn3k
              split at hres
              · -- two pair
                rename_i h2p
                obtain ⟨hp0, hp1⟩ := h2p
                injection hres with h1 h2 h3 h4
                subst h1 h3 h4
                have hne : ¬ rankAt (countValues (holeCards ++ communityCards)) 0 =
                    rankAt (countValues (holeCards ++ communityCards)) 1 :=
                  rankAt_ne _ 0 1 (by omega) (by omega) (by decide)
                have hpart := length_filter_two_ranks (holeCards ++ communityCards)
                  (rankAt (countValues (holeCards ++ communityCards)) 0)
                  (rankAt (countValues (holeCards ++ communityCards)) 1) hne
                have hcr0 : (((holeCards ++ communityCards).filter
                    (fun c => decide (c.rank = rankAt (countValues (holeCards ++ communityCards)) 0))).length) = 2 := by
                  have h0 : 0 < cvCount (countValues (holeCards ++ communityCards)) 0 := by omega
                  have hq := countRank_rankAt (holeCards ++ communityCards) 0 h0
                  simp only [countRank] at hq
                  omega
                have hcr1 : (((holeCards ++ communityCards).filter
                    (fun c => decide (c.rank = rankAt (countValues (holeCards ++ communityCards)) 1))).length) = 2 := by
                  have h0 : 0 < cvCount (countValues (holeCards ++ communityCards)) 1 := by omega
                  have hq := countRank_rankAt (holeCards ++ communityCards) 1 h0
                  simp only [countRank] at hq
                  omega
                refine ⟨?_, sorted_take_sortCardsDesc _ _, by decide, by decide⟩
                rw [List.length_append, List.length_take,
                  List.length_take, List.length_take, sortCardsDesc,
                  (List.perm_insertionSort cardDescR _).length_eq]
                omega
              · rename_i hn2p
                split at hres
                · -- one pair
                  rename_i h1p
                  injection hres with h1 h2 h3 h4
                  subst h1 h3 h4
                  have hcr : (((holeCards ++ communityCards).filter
                      (fun c => decide (c.rank = rankAt (countValues (holeCards ++ communityCards)) 0))).length) = 2 := by
                    have h0 : 0 < cvCount (countValues (holeCards ++ communityCards)) 0 := by omega
                    have hq := countRank_rankAt (holeCards ++ communityCards) 0 h0
                    simp only [countRank] at hq
                    omega
                  have hpart := length_filter_rank_compl (holeCards ++ communityCards)
                    (rankAt (countValues (holeCards ++ communityCards)) 0)
                  refine ⟨?_, sorted_take_sortCardsDesc _ _, by decide, by decide⟩
                  rw [List.length_take, sortCardsDesc,
                    (List.perm_insertionSort cardDescR _).length_eq]
                  omega
                · rename_i hn1p
                  split at hres
                  · -- high card, nonempty take
                    rename_i c ks0 htake
                    injection hres with h1 h2 h3 h4
                    subst h1 h3 h4
                    have hl5 : (c :: ks0).length = 5 := by
                      rw [← htake, List.length_take, sortCardsDesc,
                        (List.perm_insertionSort cardDescR _).length_eq]
                      omega
                    have hsort := sorted_take_sortCardsDesc
                      (holeCards ++ communityCards) 5
                    rw [htake] at hsort
                    refine ⟨?_, hsort.of_cons, by decide, by decide⟩
                    simp only [List.length_cons, List.length_nil] at hl5 ⊢
                    omega
                  · -- high card, empty take: impossible with five cards
                    rename_i htake
                    exfalso
                    have := congrArg List.length htake
                    rw [List.length_take, sortCardsDesc,
                      (List.perm_insertionSort cardDescR _).length_eq] at this
                    simp only [List.length_nil] at this
                    omega

/-- Witness for the amended C8: a concrete one-pair hand produces 2 hand
cards plus 3 descending kickers. -/
theorem evaluateHand_returns_five_card_decomposition_witness :
    (evaluateHand [card .rA .hearts, card .rA .diamonds]
        [card .rK .spades, card .rQ .clubs, card .r7 .hearts]).cards.length +
      (evaluateHand [card .rA .hearts, card .rA .diamonds]
        [card .rK .spades, card .rQ .clubs, card .r7 .hearts]).kickers.length = 5
    ∧ List.Sorted cardDescR (evaluateHand [card .rA .hearts, card .rA .diamonds]
        [card .rK .spades, card .rQ .clubs, card .r7 .hearts]).kickers
    ∧ 1 ≤ (evaluateHand [card .rA .hearts, card .rA .diamonds]
        [card .rK .spades, card .rQ .clubs, card .r7 .hearts]).ranking
    ∧ (evaluateHand [card .rA .hearts, card .rA .diamonds]
        [card .rK .spades, card .rQ .clubs, card .r7 .hearts]).ranking ≤ 10 :=
  evaluateHand_returns_five_card_decomposition
    [card .rA .hearts, card .rA .diamonds]
    [card .rK .spades, card .rQ .clubs, card .r7 .hearts]
    (by decide) (by decide)

/-- Claim C4 (amended): if the table's current bet equals the maximum
current-round bet among non-folded players, then the invariant still
holds after every accepted check; after an accepted fold, provided some
other non-folded player's round bet matches the table's current bet;
after an accepted call whose caller's balance covers the deficit; and
after an accepted raise whose raiser's balance covers the raise — i.e.
after every accepted action except a balance-capped (short all-in)
transfer, which can leave the current bet away from the non-folded
maximum. -/
theorem current_bet_matches_max_except_short_raise (db : Db) (pid : Nat)
    (act : String) (amt : Option Int) (g : Game) (ph : PlayerHand)
    (hg : db.table.game = some g) (ht : g.current_turn_player = pid)
    (hph : lookup g.player_hands pid = some ph)
    (hnd : (g.player_hands.map Prod.fst).Nodup)
    (hinv : currentBetInvariant g) :
    (toLowerStr act = "fold" →
      (∃ q ∈ g.player_hands, ¬ q.1 = pid ∧ q.2.folded = false ∧
        q.2.current_bet = g.current_bet) →
      ∀ g', (handleAction db pid act amt).1.table.game = some g' →
        currentBetInvariant g')
    ∧ (toLowerStr act = "check" →
      ∀ g', (handleAction db pid act amt).1.table.game = some g' →
        currentBetInvariant g')
    ∧ (toLowerStr act = "call" → ph.folded = false →
      g.current_bet - ph.current_bet ≤ (lookup db.accounts pid).getD 0 →
      ∀ g', (handleAction db pid act amt).1.table.game = some g' →
        currentBetInvariant g')
    ∧ (toLowerStr act = "raise" → ph.folded = false →
      ¬ raiseTarget g.current_bet amt ≤ g.current_bet →
      raiseTarget g.current_bet amt - ph.current_bet ≤
        (lookup db.accounts pid).getD 0 →
      ∀ g', (handleAction db pid act amt).1.table.game = some g' →
        currentBetInvariant g') := by
  have hmax : g.current_bet = maxNonFoldedBet g.player_hands := hinv
  have hC0 : 0 ≤ g.current_bet := by
    rw [hmax]; exact foldr_max_nonneg _
  have hallC : ∀ x ∈ nonFoldedBets g.player_hands, x ≤ g.current_bet := by
    intro x hx
    rw [hmax]
    exact le_foldr_max _ x hx
  refine ⟨?_, ?_, ?_, ?_⟩
  · -- fold
    rintro hact ⟨q, hqmem, hqne, hqf, hqb⟩ g' hg'
    rw [handleAction_fold_eq db pid act amt g ph hg ht hph hact] at hg'
    refine currentBetInvariant_postAction _ _ _ _ _ _ hg' ?_
    show g.current_bet =
      maxNonFoldedBet (setKey g.player_hands pid { ph with folded := true })
    refine (maxNonFoldedBet_setKey_eq g.player_hands pid ph _ g.current_bet
      hnd hph hC0 ?_ hallC ?_).symm
    · have hq' := mem_setKey_of_ne g.player_hands pid
        { ph with folded := true } q hqmem hqne
      have h := mem_nonFoldedBets_of _ q hq' hqf
      rwa [hqb] at h
    · intro hwf
      simp at hwf
  · -- check
    intro hact g' hg'
    by_cases hlt : 0 < g.current_bet - ph.current_bet
    · rw [handleAction_check_reject db pid act amt g ph hg ht hph hact hlt] at hg'
      have h2 : some g = some g' := by rw [← hg]; exact hg'
      obtain rfl := Option.some.inj h2
      exact hinv
    · rw [handleAction_check_eq db pid act amt g ph hg ht hph hact hlt] at hg'
      exact currentBetInvariant_postAction _ _ _ _ _ _ hg' hinv
  · -- call
    intro hact hphf hS g' hg'
    rw [handleAction_call_eq db pid act amt g ph hg ht hph hact] at hg'
    refine currentBetInvariant_postAction _ _ _ _ _ _ hg' ?_
    show g.current_bet = maxNonFoldedBet (setKey g.player_hands pid
      { ph with
        current_bet := ph.current_bet +
          min (g.current_bet - ph.current_bet) ((lookup db.accounts pid).getD 0)
        total_bet := ph.total_bet +
          min (g.current_bet - ph.current_bet) ((lookup db.accounts pid).getD 0) })
    refine (maxNonFoldedBet_setKey_self_eq g.player_hands pid ph
      { ph with
        current_bet := ph.current_bet +
          min (g.current_bet - ph.current_bet) ((lookup db.accounts pid).getD 0)
        total_bet := ph.total_bet +
          min (g.current_bet - ph.current_bet) ((lookup db.accounts pid).getD 0) }
      g.current_bet hnd hph hC0 hphf ?_ hallC).symm
    show ph.current_bet +
      min (g.current_bet - ph.current_bet) ((lookup db.accounts pid).getD 0) =
      g.current_bet
    rw [min_eq_left hS]
    ring
  · -- raise
    intro hact hphf hacc hS g' hg'
    rw [handleAction_raise_eq db pid act amt g ph hg ht hph hact hacc] at hg'
    refine currentBetInvariant_postAction _ _ _ _ _ _ hg' ?_
    have hbet : (if (lookup db.accounts pid).getD 0 <
          raiseTarget g.current_bet amt - ph.current_bet
        then (lookup db.accounts pid).getD 0
        else raiseTarget g.current_bet amt - ph.current_bet) =
        raiseTarget g.current_bet amt - ph.current_bet := if_neg (not_lt.2 hS)
    refine (maxNonFoldedBet_setKey_self_eq g.player_hands pid ph
      { ph with
        current_bet := ph.current_bet +
          (if (lookup db.accounts pid).getD 0 <
              raiseTarget g.current_bet amt - ph.current_bet
           then (lookup db.accounts pid).getD 0
           else raiseTarget g.current_bet amt - ph.current_bet)
        total_bet := ph.total_bet +
          (if (lookup db.accounts pid).getD 0 <
              raiseTarget g.current_bet amt - ph.current_bet
           then (lookup db.accounts pid).getD 0
           else raiseTarget g.current_bet amt - ph.current_bet) }
      (ph.current_bet +
        (if (lookup db.accounts pid).getD 0 <
            raiseTarget g.current_bet amt - ph.current_bet
         then (lookup db.accounts pid).getD 0
         else raiseTarget g.current_bet amt - ph.current_bet))
      hnd hph ?_ hphf rfl ?_).symm
    · show (0 : Int) ≤ ph.current_bet +
        (if (lookup db.accounts pid).getD 0 <
            raiseTarget g.current_bet amt - ph.current_bet
         then (lookup db.accounts pid).getD 0
         else raiseTarget g.current_bet amt - ph.current_bet)
      rw [hbet]
      omega
    · intro x hx
      have hx' := hallC x hx
      show x ≤ ph.current_bet +
        (if (lookup db.accounts pid).getD 0 <
            raiseTarget g.current_bet amt - ph.current_bet
         then (lookup db.accounts pid).getD 0
         else raiseTarget g.current_bet amt - ph.current_bet)
      rw [hbet]
      omega

/-- Witness for the amended C4: the invariant survives a concrete
heads-up fold (another player still matches the bet) and a concrete
covered call. -/
theorem current_bet_matches_max_except_short_raise_witness :
    currentBetInvariant gHeadsUpFold ∧ currentBetInvariant gHeadsUpCall :=
  ⟨(current_bet_matches_max_except_short_raise dbHeadsUp 1 "fold" none gHeadsUp
      ⟨[card .r2 .hearts, card .r3 .clubs], false, 1, 1⟩
      (by decide) (by decide) (by decide) (by decide) (by decide)).1
    (by decide)
    ⟨(2, ⟨[card .r4 .hearts, card .r5 .clubs], false, 2, 2⟩),
      by decide, by decide, by decide, by decide⟩
    gHeadsUpFold (by decide),
   (current_bet_matches_max_except_short_raise dbHeadsUp 1 "call" none gHeadsUp
      ⟨[card .r2 .hearts, card .r3 .clubs], false, 1, 1⟩
      (by decide) (by decide) (by decide) (by decide) (by decide)).2.2.1
    (by decide) (by decide) (by decide)
    gHeadsUpCall (by decide)⟩

end MoltiesPoker
